import Mathlib

/-!
Verification development for the tree-sitter codebase mapper
(`skills/onboard/scripts/treemap.py`).

The per-file visitors, the three corpus-wide passes and the report
formatter are embedded as executable Lean functions over an explicit
syntax-tree type.  Parsing itself is delegated to tree-sitter in the
original program, so parsed trees appear here as inputs.  Python strings
are modelled as Lean strings; the handful of Python string primitives
the program uses (strip, split, splitlines, substring containment,
replace) are reimplemented over `List Char` with Python semantics so
that every definition evaluates inside the kernel.
-/

/-! ## Python string primitives -/

/-- Whitespace recognised by Python's `str.strip()` / `str.split()`
(ASCII subset; the exotic Unicode space characters do not occur in the
inputs considered here). -/
def pyWhitespaceChar (c : Char) : Bool :=
  c == ' ' || c == '\t' || c == '\n' || c == '\r' || c == '\x0b' || c == '\x0c'

/-- Strip characters satisfying `p` from both ends of a character list. -/
def stripCharsL (p : Char → Bool) (l : List Char) : List Char :=
  ((l.dropWhile p).reverse.dropWhile p).reverse

/-- Python `str.strip()`. -/
def pyStrip (s : String) : String :=
  ⟨stripCharsL pyWhitespaceChar s.data⟩

/-- Python `str.strip(chars)` for an explicit character set. -/
def pyStripChars (chars : List Char) (s : String) : String :=
  ⟨stripCharsL (fun c => chars.contains c) s.data⟩

/-- Helper for `pySplitlines`: accumulates the current line (reversed). -/
def splitLinesAux : List Char → List Char → List (List Char)
  | [], acc => if acc.isEmpty then [] else [acc.reverse]
  | '\r' :: '\n' :: rest, acc => acc.reverse :: splitLinesAux rest []
  | '\r' :: rest, acc => acc.reverse :: splitLinesAux rest []
  | '\n' :: rest, acc => acc.reverse :: splitLinesAux rest []
  | c :: rest, acc => splitLinesAux rest (c :: acc)

/-- Python `str.splitlines()` restricted to the `\n`, `\r\n` and `\r`
terminators (the universal-newline forms produced by the program's
decoding step). -/
def pySplitlines (s : String) : List String :=
  (splitLinesAux s.data []).map String.mk

/-- Helper for `pySplitWS`. -/
def splitWSAux : List Char → List Char → List (List Char)
  | [], acc => if acc.isEmpty then [] else [acc.reverse]
  | c :: rest, acc =>
    if pyWhitespaceChar c then
      if acc.isEmpty then splitWSAux rest [] else acc.reverse :: splitWSAux rest []
    else splitWSAux rest (c :: acc)

/-- Python `str.split()` with no argument: split on whitespace runs,
discarding empty fields. -/
def pySplitWS (s : String) : List String :=
  (splitWSAux s.data []).map String.mk

/-- Helper for `splitOnCharL`. -/
def splitOnCharAux (sep : Char) : List Char → List Char → List (List Char)
  | [], acc => [acc.reverse]
  | c :: rest, acc =>
    if c == sep then acc.reverse :: splitOnCharAux sep rest []
    else splitOnCharAux sep rest (c :: acc)

/-- Python `str.split(sep)` for a one-character separator. -/
def pySplitOnChar (sep : Char) (s : String) : List String :=
  (splitOnCharAux sep s.data []).map String.mk

/-- Helper for `splitOnSubL`; the fuel starts at the length of the text,
which bounds the number of loop steps. -/
def splitOnSubAux (sep : List Char) : Nat → List Char → List Char → List (List Char)
  | 0, l, acc => [acc.reverse ++ l]
  | fuel + 1, l, acc =>
    match l with
    | [] => [acc.reverse]
    | c :: rest =>
      if sep.isPrefixOf (c :: rest) then
        acc.reverse :: splitOnSubAux sep fuel ((c :: rest).drop sep.length) []
      else
        splitOnSubAux sep fuel rest (c :: acc)

/-- Python `str.split(sep)` for a nonempty multi-character separator. -/
def pySplitOnSub (sep : String) (s : String) : List String :=
  ((splitOnSubAux sep.data s.data.length s.data []).map String.mk)

/-- Python substring containment (`needle in hay`). -/
def containsSubL (needle : List Char) : List Char → Bool
  | [] => needle.isEmpty
  | c :: rest => needle.isPrefixOf (c :: rest) || containsSubL needle rest

/-- Python substring containment on strings. -/
def pyContains (hay needle : String) : Bool :=
  containsSubL needle.data hay.data

/-- Python `str.startswith`. -/
def pyStartsWith (s pre : String) : Bool :=
  pre.data.isPrefixOf s.data

/-- Python `str.endswith`. -/
def pyEndsWith (s suf : String) : Bool :=
  suf.data.reverse.isPrefixOf s.data.reverse

/-- Python `sep.join(strings)`. -/
def pyJoin (sep : String) : List String → String
  | [] => ""
  | [x] => x
  | x :: xs => x ++ sep ++ pyJoin sep xs

/-- Helper for `pyReplace`, fuelled by the length of the text. -/
def replaceSubAux (pat rep : List Char) : Nat → List Char → List Char
  | 0, l => l
  | _ + 1, [] => []
  | fuel + 1, c :: rest =>
    if pat ≠ [] && pat.isPrefixOf (c :: rest) then
      rep ++ replaceSubAux pat rep fuel ((c :: rest).drop pat.length)
    else
      c :: replaceSubAux pat rep fuel rest

/-- Python `str.replace(pat, rep)`: every non-overlapping occurrence,
left to right (the program only calls it with nonempty patterns). -/
def pyReplace (s pat rep : String) : String :=
  ⟨replaceSubAux pat.data rep.data s.data.length s.data⟩

/-- Count of occurrences of one character (used for `source.count("\n")`). -/
def countChar (c : Char) (s : String) : Nat :=
  s.data.countP (fun d => d == c)

/-- Lexicographic comparison of character lists by code point, the order
Python uses to compare strings. -/
def listCharLeB : List Char → List Char → Bool
  | [], _ => true
  | _ :: _, [] => false
  | a :: as, b :: bs =>
    if a.toNat < b.toNat then true
    else if b.toNat < a.toNat then false
    else listCharLeB as bs

/-- The order `sorted()` uses on strings, as a proposition. -/
def strle (a b : String) : Prop :=
  listCharLeB a.data b.data = true

instance : DecidableRel strle := fun a b => by
  unfold strle
  infer_instance

/-- Python's `sorted` on strings (stable insertion sort in the string
code-point order). -/
def pySortStrings (l : List String) : List String :=
  List.insertionSort strle l

/-! ## Syntax trees and configuration -/

/-- Concrete syntax tree node as exposed by tree-sitter: a type tag, the
source text slice, the start/end rows of its span (`start_point[0]` and
`end_point[0]`), the named flag and the ordered children. -/
inductive Node : Type where
  | mk (ty : String) (text : String) (startRow : Nat) (endRow : Nat)
       (named : Bool) (children : List Node) : Node

def Node.ty : Node → String
  | .mk t _ _ _ _ _ => t

def Node.text : Node → String
  | .mk _ t _ _ _ _ => t

def Node.startRow : Node → Nat
  | .mk _ _ r _ _ _ => r

def Node.endRow : Node → Nat
  | .mk _ _ _ r _ _ => r

def Node.named : Node → Bool
  | .mk _ _ _ _ b _ => b

def Node.children : Node → List Node
  | .mk _ _ _ _ _ c => c

/-- Role profile of a language: which raw node-type tags count as
classes, functions, imports, interfaces and type aliases
(`LANG_NODE_TYPES`; missing keys are modelled by empty lists, matching
`dict.get(key, [])`). -/
structure NodeTypeProfile where
  classes : List String
  functions : List String
  imports : List String
  interfaces : List String
  type_aliases : List String

def emptyProfile : NodeTypeProfile := ⟨[], [], [], [], []⟩

def LANG_NODE_TYPES (lang : String) : NodeTypeProfile :=
  if lang = "python" then
    ⟨["class_definition"], ["function_definition"],
     ["import_statement", "import_from_statement"], [], []⟩
  else if lang = "typescript" || lang = "tsx" then
    ⟨["class_declaration"],
     ["function_declaration", "method_definition", "arrow_function"],
     ["import_statement"], ["interface_declaration"], ["type_alias_declaration"]⟩
  else if lang = "javascript" then
    ⟨["class_declaration"],
     ["function_declaration", "method_definition", "arrow_function"],
     ["import_statement"], [], []⟩
  else if lang = "rust" then
    ⟨["struct_item", "enum_item", "impl_item"], ["function_item"],
     ["use_declaration"], [], []⟩
  else if lang = "go" then
    ⟨["type_declaration"], ["function_declaration", "method_declaration"],
     ["import_declaration"], [], []⟩
  else if lang = "java" then
    ⟨["class_declaration", "interface_declaration", "enum_declaration"],
     ["method_declaration", "constructor_declaration"],
     ["import_declaration"], [], []⟩
  else if lang = "ruby" then
    ⟨["class", "module"], ["method", "singleton_method"], ["call"], [], []⟩
  else if lang = "c" then
    ⟨["struct_specifier"], ["function_definition"], ["preproc_include"], [], []⟩
  else if lang = "cpp" then
    ⟨["class_specifier", "struct_specifier"], ["function_definition"],
     ["preproc_include"], [], []⟩
  else if lang = "kotlin" then
    ⟨["class_declaration", "object_declaration"], ["function_declaration"],
     ["import_header"], [], []⟩
  else emptyProfile

/-- Thresholds and behaviour switches (`MapperConfig`). -/
structure MapperConfig where
  long_func_lines : Nat
  god_class_methods : Nat
  deep_nesting_levels : Nat
  many_params : Nat
  large_file_lines : Nat
  skip_smells : List String
  extra_ignore_dirs : List String

def defaultConfig : MapperConfig := ⟨50, 15, 4, 5, 500, [], []⟩

/-- Single finding: kind tag, severity, file, optional 1-based line and
free-text detail. -/
structure Smell where
  ty : String
  severity : String
  file : String
  line : Option Nat
  detail : String
deriving DecidableEq

/-- Per-file mutable state during AST traversal (`FileContext`).  The
`function_bodies` entries are (name, line, source). -/
structure FileContext where
  rel_path : String
  lang : String
  node_types : NodeTypeProfile
  source_text : String
  classes : List String
  functions : List String
  imports : List String
  interfaces : List String
  type_aliases : List String
  smells : List Smell
  function_bodies : List (String × Nat × String)

def emptyCtx (rel_path lang : String) (node_types : NodeTypeProfile)
    (source_text : String) : FileContext :=
  ⟨rel_path, lang, node_types, source_text, [], [], [], [], [], [], []⟩

/-! ## Helper functions over nodes -/

def nameChildTypes : List String :=
  ["identifier", "name", "type_identifier", "property_identifier", "simple_identifier"]

/-- First child that carries a name (`get_node_name`). -/
def nameScan : List Node → Option String
  | [] => none
  | c :: cs =>
    if nameChildTypes.contains c.ty then some c.text
    else if c.ty = "dotted_name" then some c.text
    else nameScan cs

def get_node_name (n : Node) : Option String :=
  nameScan n.children

def paramContainerTypes : List String :=
  ["parameters", "formal_parameters", "parameter_list", "function_value_parameters"]

def paramNodeTypes : List String :=
  ["identifier", "typed_parameter", "typed_default_parameter",
   "default_parameter", "required_parameter", "optional_parameter",
   "formal_parameter", "parameter"]

/-- Name contributed by one parameter-shaped child, mirroring the
`if name ... elif param.type == "identifier"` cascade. -/
def paramExtract (p : Node) : Option String :=
  if ¬ paramNodeTypes.contains p.ty then none
  else
    match get_node_name p with
    | some nm =>
      if nm ≠ "" ∧ nm ≠ "self" ∧ nm ≠ "cls" then some nm
      else if p.ty = "identifier" ∧ p.text ≠ "" ∧ p.text ≠ "self" ∧ p.text ≠ "cls" then
        some p.text
      else none
    | none =>
      if p.ty = "identifier" ∧ p.text ≠ "" ∧ p.text ≠ "self" ∧ p.text ≠ "cls" then
        some p.text
      else none

/-- Parameter names of a function node (`get_function_params`). -/
def get_function_params (n : Node) : List String :=
  n.children.foldr
    (fun child acc =>
      if paramContainerTypes.contains child.ty then
        child.children.filterMap paramExtract ++ acc
      else acc)
    []

def nestingTypes : List String :=
  ["if_statement", "for_statement", "while_statement", "try_statement",
   "with_statement", "for_in_statement", "if_expression",
   "match_statement", "case_clause", "switch_statement", "for_of_statement"]

mutual
/-- Maximum control-flow nesting depth (`count_nesting_depth`). -/
def count_nesting_depth : Node → Nat → Nat
  | .mk _ _ _ _ _ cs, depth => nestingDepthList cs depth
def nestingDepthList : List Node → Nat → Nat
  | [], depth => depth
  | c :: cs, depth =>
    max (count_nesting_depth c (if nestingTypes.contains c.ty then depth + 1 else depth))
        (nestingDepthList cs depth)
end

/-- First child of type `block`. -/
def firstBlockChild : List Node → Option Node
  | [] => none
  | c :: cs => if c.ty = "block" then some c else firstBlockChild cs

/-- Scan of the body statements: the first `expression_statement` decides
(it must contain a `string` child), comments are skipped, anything else
means no docstring, and so does an empty body. -/
def docstringScan : List Node → Bool
  | [] => false
  | c :: cs =>
    if c.ty = "expression_statement" then c.children.any (fun sub => sub.ty == "string")
    else if c.ty = "comment" then docstringScan cs
    else false

/-- Docstring check (`has_docstring`); a node without a `block` child is
assumed fine. -/
def has_docstring (n : Node) : Bool :=
  match firstBlockChild n.children with
  | none => true
  | some body => docstringScan body.children

/-- Catch-all except heuristic (`is_catchall_except`). -/
def is_catchall_except (n : Node) : Bool :=
  if (n.children.any (fun c => c.ty == "except")) || n.ty == "except_clause" then
    if n.children.any (fun c =>
        (c.ty == "identifier" || c.ty == "as_pattern") && pyContains c.text "Exception") then
      true
    else if (¬ n.children.any (fun c => c.ty == "identifier" || c.ty == "as_pattern"))
        ∧ n.children.length ≤ 3
        ∧ ((n.children.filter (fun c => c.text ≠ "")).map Node.text).contains "except"
        ∧ (¬ n.children.any (fun c =>
             c.ty == "identifier" || c.ty == "as_pattern" || c.ty == "tuple")) then
      true
    else false
  else false

/-- Readable import string (`get_import_text`): stripped and truncated to
77 characters plus an ellipsis when longer than 80. -/
def get_import_text (n : Node) : String :=
  let t := pyStrip n.text
  if 80 < t.data.length then ⟨t.data.take 77⟩ ++ "..." else t

/-! ## Visitors -/

/-- ClassVisitor.visit: records the class name, god-class detection and
the missing-docstring check for Python classes outside `tests/`. -/
def classVisit (cfg : MapperConfig) (n : Node) (ctx : FileContext) : FileContext :=
  if ¬ ctx.node_types.classes.contains n.ty then ctx
  else
    match get_node_name n with
    | none => ctx
    | some nm =>
      if nm = "" then ctx
      else
        let ctx1 := { ctx with classes := ctx.classes ++ [nm] }
        let method_count :=
          (n.children.map (fun child =>
            if ["block", "class_body", "declaration_list", "field_declaration_list"].contains child.ty then
              (child.children.filter (fun m =>
                ["function_definition", "method_definition", "method_declaration",
                 "function_item", "function_declaration"].contains m.ty)).length
            else 0)).sum
        let ctx2 :=
          if cfg.god_class_methods < method_count then
            { ctx1 with smells := ctx1.smells ++
                [⟨"GOD_CLASS", "high", ctx1.rel_path, some (n.startRow + 1),
                  nm ++ " has " ++ Nat.repr method_count ++ " methods"⟩] }
          else ctx1
        if ctx2.lang = "python" ∧ has_docstring n = false
            ∧ pyStartsWith ctx2.rel_path "tests/" = false then
          { ctx2 with smells := ctx2.smells ++
              [⟨"MISSING_DOCSTRING", "low", ctx2.rel_path, some (n.startRow + 1),
                "class " ++ nm⟩] }
        else ctx2

/-- FunctionVisitor.visit: records the name, long-function, deep-nesting,
many-parameter and missing-docstring findings, and captures bodies of at
least 10 lines for the duplicate pass. -/
def functionVisit (cfg : MapperConfig) (n : Node) (ctx : FileContext) : FileContext :=
  if ¬ ctx.node_types.functions.contains n.ty then ctx
  else
    match get_node_name n with
    | none => ctx
    | some nm =>
      if nm = "" then ctx
      else
        let ctx1 := { ctx with functions := ctx.functions ++ [nm] }
        let func_lines := n.endRow - n.startRow + 1
        let ctx2 :=
          if cfg.long_func_lines < func_lines then
            { ctx1 with smells := ctx1.smells ++
                [⟨"LONG_FUNCTION", "medium", ctx1.rel_path, some (n.startRow + 1),
                  nm ++ "() is " ++ Nat.repr func_lines ++ " lines"⟩] }
          else ctx1
        let depth := count_nesting_depth n 0
        let ctx3 :=
          if cfg.deep_nesting_levels < depth then
            { ctx2 with smells := ctx2.smells ++
                [⟨"DEEP_NESTING", "medium", ctx2.rel_path, some (n.startRow + 1),
                  nm ++ "() has " ++ Nat.repr depth ++ " nesting levels"⟩] }
          else ctx2
        let params := get_function_params n
        let ctx4 :=
          if cfg.many_params < params.length then
            { ctx3 with smells := ctx3.smells ++
                [⟨"MANY_PARAMS", "medium", ctx3.rel_path, some (n.startRow + 1),
                  nm ++ "() has " ++ Nat.repr params.length ++ " parameters"⟩] }
          else ctx3
        let ctx5 :=
          if ctx4.lang = "python" ∧ has_docstring n = false
              ∧ pyStartsWith nm "_" = false
              ∧ pyStartsWith nm "test_" = false
              ∧ pyStartsWith ctx4.rel_path "tests/" = false then
            { ctx4 with smells := ctx4.smells ++
                [⟨"MISSING_DOCSTRING", "low", ctx4.rel_path, some (n.startRow + 1),
                  nm ++ "()"⟩] }
          else ctx4
        if 10 ≤ func_lines then
          { ctx5 with function_bodies :=
              ctx5.function_bodies ++ [(nm, n.startRow + 1, n.text)] }
        else ctx5

/-- ImportVisitor.visit. -/
def importVisit (_cfg : MapperConfig) (n : Node) (ctx : FileContext) : FileContext :=
  if ¬ ctx.node_types.imports.contains n.ty then ctx
  else
    let t := get_import_text n
    if t = "" then ctx else { ctx with imports := ctx.imports ++ [t] }

/-- InterfaceVisitor.visit. -/
def interfaceVisit (_cfg : MapperConfig) (n : Node) (ctx : FileContext) : FileContext :=
  if ¬ ctx.node_types.interfaces.contains n.ty then ctx
  else
    match get_node_name n with
    | none => ctx
    | some nm => if nm = "" then ctx else { ctx with interfaces := ctx.interfaces ++ [nm] }

/-- TypeAliasVisitor.visit. -/
def typeAliasVisit (_cfg : MapperConfig) (n : Node) (ctx : FileContext) : FileContext :=
  if ¬ ctx.node_types.type_aliases.contains n.ty then ctx
  else
    match get_node_name n with
    | none => ctx
    | some nm => if nm = "" then ctx else { ctx with type_aliases := ctx.type_aliases ++ [nm] }

/-- CatchAllVisitor.visit (Python only). -/
def catchAllVisit (_cfg : MapperConfig) (n : Node) (ctx : FileContext) : FileContext :=
  if ctx.lang ≠ "python" ∨ n.ty ≠ "except_clause" then ctx
  else if is_catchall_except n then
    { ctx with smells := ctx.smells ++
        [⟨"CATCH_ALL_EXCEPTION", "high", ctx.rel_path, some (n.startRow + 1),
          pyStrip ((pySplitOnChar '\n' n.text).headD "")⟩] }
  else ctx

def deadBlockTypes : List String := ["block", "statement_block", "compound_statement"]

def deadTerminalTypes : List String :=
  ["return_statement", "raise_statement", "break_statement",
   "continue_statement", "throw_statement"]

def deadSkipTypes : List String := ["comment", "newline", "NEWLINE", "INDENT", "DEDENT"]

/-- Scan inside a block: after a terminal statement the next statement is
reported once and scanning stops. -/
def deadScan (rel_path : String) : List Node → Bool → String → Option Smell
  | [], _, _ => none
  | c :: cs, found_terminal, terminal_ty =>
    if found_terminal then
      some ⟨"DEAD_CODE", "medium", rel_path, some (c.startRow + 1),
        "unreachable code after " ++ pyReplace terminal_ty "_statement" ""⟩
    else if deadTerminalTypes.contains c.ty then deadScan rel_path cs true c.ty
    else deadScan rel_path cs false terminal_ty

/-- DeadCodeVisitor.visit. -/
def deadCodeVisit (_cfg : MapperConfig) (n : Node) (ctx : FileContext) : FileContext :=
  if ¬ deadBlockTypes.contains n.ty then ctx
  else
    let children := n.children.filter (fun c => c.named && ¬ deadSkipTypes.contains c.ty)
    match deadScan ctx.rel_path children false "" with
    | some s => { ctx with smells := ctx.smells ++ [s] }
    | none => ctx

/-- One visitor pipeline step: the ordered visitors applied to one node. -/
def visitAll (cfg : MapperConfig) (n : Node) (ctx : FileContext) : FileContext :=
  deadCodeVisit cfg n (catchAllVisit cfg n (typeAliasVisit cfg n (interfaceVisit cfg n
    (importVisit cfg n (functionVisit cfg n (classVisit cfg n ctx))))))

mutual
/-- Pre-order walk dispatching every node to all visitors (`_walk_tree`). -/
def walkTree (cfg : MapperConfig) : Node → FileContext → FileContext
  | .mk t x sr er nf cs, ctx =>
    walkList cfg cs (visitAll cfg (.mk t x sr er nf cs) ctx)
def walkList (cfg : MapperConfig) : List Node → FileContext → FileContext
  | [], ctx => ctx
  | c :: cs, ctx => walkList cfg cs (walkTree cfg c ctx)
end

/-! ## difflib.SequenceMatcher (as called with `isjunk = None`)

The duplicate pass compares normalized bodies with
`difflib.SequenceMatcher(None, a, b).ratio()`.  The matcher is modelled
below: `b2j` with the autojunk purge of popular elements, the
`find_longest_match` dynamic program with its four extension loops (the
junk set is empty because `isjunk` is `None`), the recursive
block-splitting of `get_matching_blocks`, and the final
`2 * matches / (len(a) + len(b))` ratio. -/

/-- Ascending positions of a character in a list, starting at index `i`. -/
def listPositions : List Char → Char → Nat → List Nat
  | [], _, _ => []
  | x :: xs, c, i =>
    if x = c then i :: listPositions xs c (i + 1) else listPositions xs c (i + 1)

/-- Autojunk popularity test: with `len(b) >= 200`, elements occurring
more than `len(b) // 100 + 1` times are purged from `b2j`. -/
def isPopular (b : List Char) (c : Char) : Bool :=
  200 ≤ b.length && b.length / 100 + 1 < (listPositions b c 0).length

/-- The `b2j` mapping after the popularity purge. -/
def b2jFun (b : List Char) (c : Char) : List Nat :=
  if isPopular b c then [] else listPositions b c 0

/-- State of the running best match of `find_longest_match`. -/
structure BestMatch where
  besti : Nat
  bestj : Nat
  size : Nat
deriving DecidableEq

/-- Inner loop of `find_longest_match` over the positions of `a[i]` in
`b`: builds `newj2len` from the previous row and tracks the best match.
Run lengths never exceed `i - alo + 1`, so the `i + 1 - k` subtraction
does not underflow on reachable states. -/
def flmInner (j2lenOld : Nat → Nat) (i blo bhi : Nat) :
    List Nat → (Nat → Nat) → BestMatch → ((Nat → Nat) × BestMatch)
  | [], acc, best => (acc, best)
  | j :: js, acc, best =>
    if j < blo then flmInner j2lenOld i blo bhi js acc best
    else if bhi ≤ j then (acc, best)
    else
      let k := (if j = 0 then 0 else j2lenOld (j - 1)) + 1
      let acc' := fun j' => if j' = j then k else acc j'
      if best.size < k then
        flmInner j2lenOld i blo bhi js acc' ⟨i + 1 - k, j + 1 - k, k⟩
      else
        flmInner j2lenOld i blo bhi js acc' best

/-- Row loop of `find_longest_match` over `i` in `[alo, ahi)`; the fuel
is the number of remaining rows.  Each row starts from a fresh
`newj2len`, mirroring the dictionary swap. -/
def flmRows (a : List Char) (b2jF : Char → List Nat) (blo bhi : Nat) :
    Nat → Nat → (Nat → Nat) → BestMatch → BestMatch
  | 0, _, _, best => best
  | fuel + 1, i, j2len, best =>
    let step := flmInner j2len i blo bhi (b2jF (a.getD i ' ')) (fun _ => 0) best
    flmRows a b2jF blo bhi fuel (i + 1) step.1 step.2

/-- Leftward extension loop: widens the match while the adjacent
characters agree and the junk flag of `b`'s character equals `junkVal`
(`False` models `not isbjunk(...)`, `True` models `isbjunk(...)`). -/
def extendLeft (a b : List Char) (junkF : Char → Bool) (junkVal : Bool) (alo blo : Nat) :
    Nat → BestMatch → BestMatch
  | 0, best => best
  | fuel + 1, best =>
    if alo < best.besti ∧ blo < best.bestj
        ∧ junkF (b.getD (best.bestj - 1) ' ') = junkVal
        ∧ a.getD (best.besti - 1) ' ' = b.getD (best.bestj - 1) ' ' then
      extendLeft a b junkF junkVal alo blo fuel
        ⟨best.besti - 1, best.bestj - 1, best.size + 1⟩
    else best

/-- Rightward extension loop, analogous to `extendLeft`. -/
def extendRight (a b : List Char) (junkF : Char → Bool) (junkVal : Bool) (ahi bhi : Nat) :
    Nat → BestMatch → BestMatch
  | 0, best => best
  | fuel + 1, best =>
    if best.besti + best.size < ahi ∧ best.bestj + best.size < bhi
        ∧ junkF (b.getD (best.bestj + best.size) ' ') = junkVal
        ∧ a.getD (best.besti + best.size) ' ' = b.getD (best.bestj + best.size) ' ' then
      extendRight a b junkF junkVal ahi bhi fuel
        ⟨best.besti, best.bestj, best.size + 1⟩
    else best

/-- Model of `find_longest_match(alo, ahi, blo, bhi)`: the dynamic
program followed by the non-junk and junk extension passes. -/
def find_longest_match (a b : List Char) (b2jF : Char → List Nat) (junkF : Char → Bool)
    (alo ahi blo bhi : Nat) : BestMatch :=
  let best1 := flmRows a b2jF blo bhi (ahi - alo) alo (fun _ => 0) ⟨alo, blo, 0⟩
  let best2 := extendLeft a b junkF false alo blo best1.besti best1
  let best3 := extendRight a b junkF false ahi bhi (ahi - (best2.besti + best2.size)) best2
  let best4 := extendLeft a b junkF true alo blo best3.besti best3
  extendRight a b junkF true ahi bhi (ahi - (best4.besti + best4.size)) best4

/-- Total size of all matching blocks of `get_matching_blocks`: each
region is split at its longest match and the two remaining corners are
processed recursively.  The fuel starts above the region perimeter,
which bounds the recursion depth. -/
def matchSum (a b : List Char) (b2jF : Char → List Nat) (junkF : Char → Bool) :
    Nat → Nat → Nat → Nat → Nat → Nat
  | 0, _, _, _, _ => 0
  | fuel + 1, alo, ahi, blo, bhi =>
    let m := find_longest_match a b b2jF junkF alo ahi blo bhi
    if m.size = 0 then 0
    else
      m.size
      + (if alo < m.besti ∧ blo < m.bestj then
           matchSum a b b2jF junkF fuel alo m.besti blo m.bestj
         else 0)
      + (if m.besti + m.size < ahi ∧ m.bestj + m.size < bhi then
           matchSum a b b2jF junkF fuel (m.besti + m.size) ahi (m.bestj + m.size) bhi
         else 0)

/-- Sum of the sizes of the matching blocks of
`SequenceMatcher(None, a, b)`. -/
def seqMatches (a b : List Char) : Nat :=
  matchSum a b (b2jFun b) (fun _ => false) (a.length + b.length + 1) 0 a.length 0 b.length

/-- The `ratio()` value, `2 * matches / (len(a) + len(b))`, and `1.0`
for two empty sequences, exactly as `_calculate_ratio` computes it. -/
def similarity (a b : String) : ℚ :=
  if a.data.length + b.data.length = 0 then 1
  else (2 * seqMatches a.data b.data : ℚ) / (a.data.length + b.data.length)

/-- The `ratio > 0.8` test of the duplicate pass in exact integer
arithmetic: `2m / L > 4 / 5` is `4L < 10m` for `L > 0`.  The double
rounding of `2.0 * m / L` cannot cross the threshold for any corpus
representable here, so this is the comparison the program performs. -/
def dupGate (a b : String) : Bool :=
  let m := seqMatches a.data b.data
  let len := a.data.length + b.data.length
  if len = 0 then true else decide (4 * len < 10 * m)

/-! ## Duplicate-logic detector -/

/-- Captured function body: (file, name, line, source). -/
structure FuncBody where
  file : String
  name : String
  line : Nat
  src : String
deriving DecidableEq

instance : Inhabited FuncBody := ⟨⟨"", "", 0, ""⟩⟩

/-- Normalisation step of `detect_duplicate_logic.normalize`: keep the
stripped form of every line that is nonempty and not a full-line
comment, joined with newlines. -/
def normalizeFB (source : String) : String :=
  pyJoin "\n" ((pySplitlines source).filterMap (fun line =>
    let stripped := pyStrip line
    if stripped ≠ "" ∧ pyStartsWith stripped "#" = false ∧ pyStartsWith stripped "//" = false
    then some stripped else none))

def normalizeEntry (e : FuncBody) : FuncBody :=
  { e with src := normalizeFB e.src }

/-- Nearest integer with ties to even, for the `{ratio:.0%}` display. -/
def pctRoundHalfEven (num den : Nat) : Nat :=
  let q := num / den
  let r := num % den
  if den < 2 * r then q + 1
  else if 2 * r < den then q
  else if q % 2 = 0 then q else q + 1

/-- Percentage shown in the DUPLICATE_LOGIC detail. -/
def dupPct (A B : FuncBody) : Nat :=
  let len := A.src.data.length + B.src.data.length
  if len = 0 then 100 else pctRoundHalfEven (200 * seqMatches A.src.data B.src.data) len

/-- DUPLICATE_LOGIC finding for one qualifying ordered pair, attributed
to the first body. -/
def mkDupSmell (A B : FuncBody) : Smell :=
  ⟨"DUPLICATE_LOGIC", "medium", A.file, some A.line,
   A.name ++ "() ~" ++ Nat.repr (dupPct A B) ++ "% similar to " ++ B.name
     ++ "() in " ++ B.file ++ ":" ++ Nat.repr B.line⟩

/-- Inner loop of the pairwise comparison (`j` ranging over the bodies
after `A`). -/
def dupScanInner (A : FuncBody) : List FuncBody → List Smell
  | [] => []
  | B :: rest =>
    (if dupGate A.src B.src then [mkDupSmell A B] else []) ++ dupScanInner A rest

/-- Outer loop of the pairwise comparison. -/
def dupScan : List FuncBody → List Smell
  | [] => []
  | A :: rest => dupScanInner A rest ++ dupScan rest

/-- Corpus-wide duplicate pass (`detect_duplicate_logic`). -/
def detect_duplicate_logic (bodies : List FuncBody) : List Smell :=
  if bodies.length < 2 then []
  else dupScan (bodies.map normalizeEntry)

/-! ## Unused-import detector -/

/-- Names listed after `from ... import` (`_extract_imported_names`,
from-branch). -/
def extractFromNames (rest : String) : List String :=
  (pySplitOnChar ',' rest).filterMap (fun item0 =>
    let item := pyStrip item0
    if pyContains item " as " then some (pyStrip ((pySplitOnSub " as " item).getLastD ""))
    else if item ≠ "" ∧ item ≠ "*" then some item
    else none)

/-- Names bound by a plain `import ...` statement
(`_extract_imported_names`, import-branch): the alias after `as`, or
the first dotted component. -/
def extractPlainNames (rest : String) : List String :=
  (pySplitOnChar ',' rest).filterMap (fun item0 =>
    let item := pyStrip item0
    if pyContains item " as " then some (pyStrip ((pySplitOnSub " as " item).getLastD ""))
    else
      let name := pyStrip ((pySplitOnChar '.' item).headD "")
      if name ≠ "" then some name else none)

def idxOfStr (l : List String) (x : String) : Nat :=
  l.findIdx (fun y => y = x)

/-- Model of `_extract_imported_names`. -/
def _extract_imported_names (imp_text : String) : List String :=
  let parts := pySplitWS imp_text
  match parts with
  | [] => []
  | p0 :: _ =>
    if p0 = "from" ∧ parts.contains "import" then
      extractFromNames
        (pyStripChars ['(', ')'] (pyJoin " " (parts.drop (idxOfStr parts "import" + 1))))
    else if p0 = "import" then
      extractPlainNames (pyJoin " " (parts.drop 1))
    else []

/-- Concatenation of the lines whose stripped form does not open with
`import ` or `from `. -/
def nonImportText (source_text : String) : String :=
  pyJoin "\n" ((pySplitlines source_text).filter (fun line =>
    let stripped := pyStrip line
    ¬ (pyStartsWith stripped "import " || pyStartsWith stripped "from ")))

def mkUnusedSmell (rel_path name : String) : Smell :=
  ⟨"UNUSED_IMPORT", "low", rel_path, none, "\x27" ++ name ++ "\x27 appears unused"⟩

/-- Per-file structural record (`file_data` entry). -/
structure FileData where
  lang : String
  classes : List String
  functions : List String
  imports : List String
  interfaces : List String
  type_aliases : List String
  line_count : Nat
deriving DecidableEq

/-- Findings of the unused-import pass for one file. -/
def unusedForFile (rel_path : String) (info : FileData) (source_text : String) : List Smell :=
  info.imports.flatMap (fun imp_text =>
    (_extract_imported_names imp_text).filterMap (fun name =>
      if name ≠ "" ∧ name ≠ "*" ∧ pyContains (nonImportText source_text) name = false
      then some (mkUnusedSmell rel_path name) else none))

/-- Corpus-wide unused-import pass (`detect_unused_imports`); the pass
re-reads each file, modelled by `readSource` (a read failure skips the
file). -/
def detect_unused_imports (file_data : List (String × FileData))
    (readSource : String → Option String) : List Smell :=
  file_data.flatMap (fun e =>
    if e.2.lang ≠ "python" then []
    else
      match readSource e.1 with
      | none => []
      | some src => unusedForFile e.1 e.2 src)

/-! ## Import-cycle detector -/

/-- Synthesized module key of a Python file path. -/
def moduleKeyOfPath (rel_path : String) : String :=
  pyReplace (pyReplace rel_path "/" ".") ".py" ""

/-- Package part of a module key (everything before the last dot). -/
def importBase (module : String) : String :=
  pyJoin "." ((pySplitOnChar '.' module).dropLast)

/-- Resolution of an import spelling against the known module keys:
exact match, dotted-suffix match, or relative resolution against the
importing module; the loop order over the knowns is the set-iteration
order. -/
def matchImported (allKnowns : List String) (module imported : String) :
    List String → Option String
  | [] => none
  | known :: rest =>
    if known = imported ∨ pyEndsWith known ("." ++ imported) then some known
    else if pyStartsWith imported "." ∧ allKnowns.contains (importBase module ++ imported) then
      some (importBase module ++ imported)
    else matchImported allKnowns module imported rest

/-- State threaded through the depth-first search. -/
structure DfsState where
  visited : List String
  cycles : List (List String)

/-- Marking step `visited.add(module)` of the search. -/
def dfsMark (st : DfsState) (module : String) : DfsState :=
  { st with visited :=
      if st.visited.contains module then st.visited else st.visited ++ [module] }

/-- The `dfs` closure of `detect_circular_imports`: marks the module
visited, pushes it on the path, follows each resolvable import, records
a cycle when the target is on the recursion stack, and recurses into
unvisited targets.  The recursion stack always equals the set of path
members, so it is represented by the path.  The fuel exceeds the number
of known modules, which bounds the recursion depth because every
recursive call first marks an unvisited module visited. -/
def dfs (g : List (String × List String)) (knowns : List String) :
    Nat → String → List String → DfsState → DfsState
  | 0, _, _, st => st
  | fuel + 1, module, path, st =>
    let st1 : DfsState := dfsMark st module
    let path' := path ++ [module]
    ((List.lookup module g).getD []).foldl
      (fun (acc : DfsState) imported =>
        match matchImported knowns module imported knowns with
        | none => acc
        | some matched =>
          if path'.contains matched then
            { acc with cycles :=
                acc.cycles ++ [path'.drop (idxOfStr path' matched) ++ [matched]] }
          else if ¬ acc.visited.contains matched then
            dfs g knowns fuel matched path' acc
          else acc)
      st1

/-- The `find_cycles` closure: depth-first search from every unvisited
known module.  `order` is the iteration order of the `known_modules`
set, which CPython does not fix (per-process string hashing); it is an
explicit parameter here. -/
def find_cycles (g : List (String × List String)) (order : List String) :
    List (List String) :=
  (order.foldl
    (fun (st : DfsState) module =>
      if st.visited.contains module then st
      else dfs g order (order.length + 1) module [] st)
    ⟨[], []⟩).cycles

/-- Deduplication key: the sorted members without the repeated closer. -/
def cycleKey (cycle : List String) : String :=
  pyJoin " -> " (pySortStrings cycle.dropLast)

/-- Cycles kept by the `seen` set, in discovery order. -/
def dedupCycles (cycles : List (List String)) : List (List String) :=
  (cycles.foldl
    (fun (acc : List (List String) × List String) cycle =>
      if acc.2.contains (cycleKey cycle) then acc
      else (acc.1 ++ [cycle], acc.2 ++ [cycleKey cycle]))
    ([], [])).1

/-- CIRCULAR_IMPORT finding for one kept cycle, attributed to the first
module of the discovered path. -/
def mkCircSmell (cycle : List String) : Smell :=
  ⟨"CIRCULAR_IMPORT", "high", pyReplace (cycle.headD "") "." "/" ++ ".py", none,
   pyJoin " -> " cycle⟩

/-- Corpus-wide cycle pass (`detect_circular_imports`). -/
def detect_circular_imports (g : List (String × List String)) (order : List String) :
    List Smell :=
  (dedupCycles (find_cycles g order)).map mkCircSmell

/-! ## Scan phase -/

def DEFAULT_IGNORE_DIRS : List String :=
  [".git", "node_modules", "__pycache__", "venv", ".venv", "env",
   "dist", "build", ".tox", ".mypy_cache", ".pytest_cache", ".ruff_cache",
   ".next", ".nuxt", "target", "out", ".eggs", "*.egg-info",
   ".claude", ".idea", ".vscode", "coverage", "htmlcov",
   ".cache", ".parcel-cache", ".turbo", ".vercel", ".output",
   "vendor", "bower_components", ".gradle", ".mvn",
   "_build", "site-packages", ".bundle"]

def EXT_TO_LANG : List (String × String) :=
  [(".py", "python"), (".ts", "typescript"), (".tsx", "tsx"),
   (".js", "javascript"), (".jsx", "javascript"), (".rs", "rust"),
   (".go", "go"), (".java", "java"), (".rb", "ruby"),
   (".c", "c"), (".h", "c"), (".cpp", "cpp"), (".cc", "cpp"),
   (".cxx", "cpp"), (".hpp", "cpp"), (".kt", "kotlin"), (".kts", "kotlin")]

/-- Path components, with the empty tuple for the root marker `.`
(mirroring `Path(...).parts`). -/
def pathParts (p : String) : List String :=
  if p = "." then [] else pySplitOnChar '/' p

/-- Ignore check (`should_ignore`): any path component equal to an
ignored name, or matching a `*`-pattern by suffix. -/
def should_ignore (path : String) (ignore_dirs : List String) : Bool :=
  (pathParts path).any (fun part =>
    ignore_dirs.contains part ||
    ignore_dirs.any (fun pattern =>
      pattern.data.contains '*' && pyEndsWith part (pyReplace pattern "*" "")))

/-- Index of the last dot of a filename. -/
def lastDotIdx (l : List Char) : Option Nat :=
  ((List.range l.length).filter (fun i => l.getD i ' ' = '.')).getLast?

/-- Extension of a filename (`Path(...).suffix`): from the last dot,
provided it is neither the first nor the last character. -/
def pathSuffix (fname : String) : String :=
  match lastDotIdx fname.data with
  | none => ""
  | some i =>
    if 0 < i ∧ i + 1 < fname.data.length then ⟨fname.data.drop i⟩ else ""

/-- File content made available to the mapper: the parsed tree and the
decoded text.  `none` models an unreadable file, a parser failure or an
unavailable grammar, all of which skip the file. -/
structure SrcFile where
  root : Node
  source : String

/-- Accumulated mapper state (the mutable fields of `CodebaseMapper`). -/
structure MapperState where
  files_parsed : Nat
  file_data : List (String × FileData)
  smells : List Smell
  import_graph : List (String × List String)
  function_bodies : List FuncBody

/-- Insertion into the import graph (`defaultdict(set)` entry added via
`.add`): keys are dict keys, so the key order is Python's insertion
order; each value list carries the CONTENTS of the corresponding `set`
(deduplicated, held here in insertion order as a canonical carrier).
The hash-dependent order in which the cycle search actually iterates a
value set is not fixed by the program and is applied at the point of
use, by the `edgeOrder` parameter of `analysisState`. -/
def graphAdd : List (String × List String) → String → String → List (String × List String)
  | [], key, imp => [(key, [imp])]
  | (k, imps) :: rest, key, imp =>
    if k = key then (k, if imps.contains imp then imps else imps ++ [imp]) :: rest
    else (k, imps) :: graphAdd rest key imp

/-- Python `p1.rstrip(",")`. -/
def rstripComma (s : String) : String :=
  ⟨(s.data.reverse.dropWhile (fun c => c == ',')).reverse⟩

/-- Comma-grouping helper over reversed digit lists. -/
def commaGroupRev : Nat → List Char → List Char
  | 0, l => l
  | fuel + 1, l =>
    let h := l.take 3
    let t := l.drop 3
    if t.isEmpty then h else h ++ ',' :: commaGroupRev fuel t

/-- Python `{n:,}` thousands formatting of a natural number. -/
def commaFmt (n : Nat) : String :=
  ⟨(commaGroupRev (Nat.repr n).data.length (Nat.repr n).data.reverse).reverse⟩

/-- One file parsed and visited (`_parse_file` on a readable, parsable
file). -/
def parse_file (cfg : MapperConfig) (st : MapperState) (rel_path lang : String)
    (f : SrcFile) : MapperState :=
  let line_count := countChar '\n' f.source + 1
  let st1 : MapperState :=
    if cfg.large_file_lines < line_count then
      { st with files_parsed := st.files_parsed + 1,
                smells := st.smells ++
                  [⟨"LARGE_FILE", "low", rel_path, none, commaFmt line_count ++ " lines"⟩] }
    else { st with files_parsed := st.files_parsed + 1 }
  let ctx := walkTree cfg f.root (emptyCtx rel_path lang (LANG_NODE_TYPES lang) f.source)
  let st2 : MapperState :=
    { st1 with
      smells := st1.smells ++ ctx.smells,
      function_bodies := st1.function_bodies ++
        ctx.function_bodies.map (fun e => ⟨rel_path, e.1, e.2.1, e.2.2⟩) }
  let st3 : MapperState :=
    if lang = "python" then
      ctx.imports.foldl
        (fun (acc : MapperState) imp_text =>
          match pySplitWS imp_text with
          | p0 :: p1 :: _ =>
            if p0 = "from" then
              { acc with import_graph :=
                  graphAdd acc.import_graph (moduleKeyOfPath rel_path) p1 }
            else if p0 = "import" then
              { acc with import_graph :=
                  graphAdd acc.import_graph (moduleKeyOfPath rel_path) (rstripComma p1) }
            else acc
          | _ => acc)
        st2
    else st2
  { st3 with file_data := st3.file_data ++
      [(rel_path, ⟨lang, ctx.classes, ctx.functions, ctx.imports,
                   ctx.interfaces, ctx.type_aliases, line_count⟩)] }

def relPathOf (rel_dir fname : String) : String :=
  if rel_dir = "." then fname else rel_dir ++ "/" ++ fname

/-- Files of one directory, visited in sorted filename order. -/
def scanDir (cfg : MapperConfig) (lookup : String → Option SrcFile)
    (rel_dir : String) (filenames : List String) (st : MapperState) : MapperState :=
  (pySortStrings filenames).foldl
    (fun acc fname =>
      match List.lookup (pathSuffix fname) EXT_TO_LANG with
      | none => acc
      | some lang =>
        match lookup (relPathOf rel_dir fname) with
        | none => acc
        | some f => parse_file cfg acc (relPathOf rel_dir fname) lang f)
    st

/-- The walk (`scan`): directories in traversal order with their raw
filename lists.  Pruned subtrees are equivalent to skipping every
directory whose path contains an ignored component, because
`should_ignore` inspects all components. -/
def scan (cfg : MapperConfig) (dirs : List (String × List String))
    (lookup : String → Option SrcFile) : MapperState :=
  dirs.foldl
    (fun st e =>
      if should_ignore e.1 (DEFAULT_IGNORE_DIRS ++ cfg.extra_ignore_dirs) then st
      else scanDir cfg lookup e.1 e.2 st)
    ⟨0, [], [], [], []⟩

/-! ## Report formatter -/

/-- Order-preserving deduplication (`dict.fromkeys`). -/
def dedupAux : List String → List String → List String
  | [], _ => []
  | x :: xs, seen => if seen.contains x then dedupAux xs seen else x :: dedupAux xs (x :: seen)

/-- Grouping directory of a file (`parts[0] if len(parts) > 1 else "."`). -/
def topDir (rel_path : String) : String :=
  let parts := pySplitOnChar '/' rel_path
  if 1 < parts.length then parts.headD "." else "."

/-- Counter increment preserving first-occurrence key order
(`defaultdict(int)`). -/
def addCount : List (String × Nat) → String → List (String × Nat)
  | [], key => [(key, 1)]
  | (k, c) :: rest, key =>
    if k = key then (k, c + 1) :: rest else (k, c) :: addCount rest key

def langCounts (fd : List (String × FileData)) : List (String × Nat) :=
  fd.foldl (fun acc e => addCount acc e.2.lang) []

/-- Stable sort by descending count (`sorted(..., key=lambda x: -x[1])`). -/
def sortByCountDesc (l : List (String × Nat)) : List (String × Nat) :=
  List.insertionSort (fun x y : String × Nat => y.2 ≤ x.2) l

def sevCount (smells : List Smell) (sev : String) : Nat :=
  (smells.filter (fun s => s.severity = sev)).length

/-- Python `str.capitalize()`. -/
def pyCapitalize (s : String) : String :=
  match s.data with
  | [] => ""
  | c :: rest => ⟨c.toUpper :: rest.map Char.toLower⟩

/-- Strict code-point comparison of character lists. -/
def listCharLtB : List Char → List Char → Bool
  | [], [] => false
  | [], _ :: _ => true
  | _ :: _, [] => false
  | a :: as, b :: bs =>
    if a.toNat < b.toNat then true
    else if b.toNat < a.toNat then false
    else listCharLtB as bs

/-- The `(file, line or 0)` sort key comparison. -/
def smellKeyLe (x y : Smell) : Prop :=
  (listCharLtB x.file.data y.file.data
    || (x.file == y.file && decide (x.line.getD 0 ≤ y.line.getD 0))) = true

instance : DecidableRel smellKeyLe := fun x y => by
  unfold smellKeyLe
  infer_instance

/-- Stable sort of findings by `(file, line or 0)`. -/
def sortSmellsByLoc (l : List Smell) : List Smell :=
  List.insertionSort smellKeyLe l

def severityLabel (sev : String) : String :=
  if sev = "high" then "High Priority"
  else if sev = "medium" then "Medium Priority"
  else "Low Priority"

/-- Structural listing entry of one file. -/
def fileEntryLines (rel_path : String) (info : FileData) : List String :=
  ["**" ++ rel_path ++ "** (" ++ info.lang ++ ", " ++ Nat.repr info.line_count ++ " lines)"]
  ++ (if info.classes ≠ [] then ["  - classes: " ++ pyJoin ", " info.classes] else [])
  ++ (if info.interfaces ≠ [] then ["  - interfaces: " ++ pyJoin ", " info.interfaces] else [])
  ++ (if info.type_aliases ≠ [] then ["  - types: " ++ pyJoin ", " info.type_aliases] else [])
  ++ (if info.functions ≠ [] then
        ["  - functions: " ++
          (if 20 < info.functions.length then
            pyJoin ", " (info.functions.take 20)
              ++ " ... (+" ++ Nat.repr (info.functions.length - 20) ++ " more)"
          else pyJoin ", " info.functions)]
      else [])
  ++ (if info.imports ≠ [] then
        let imp_names := info.imports.filterMap (fun imp =>
          match pySplitWS imp with
          | p0 :: p1 :: _ =>
            some (rstripComma
              (if p0 = "import" ∨ p0 = "from" ∨ p0 = "#include" then p1 else p0))
          | _ => none)
        let unique := dedupAux imp_names []
        ["  - imports: " ++
          (if 15 < unique.length then
            pyJoin ", " (unique.take 15)
              ++ " ... (+" ++ Nat.repr (unique.length - 15) ++ " more)"
          else pyJoin ", " unique)]
      else [])
  ++ [""]

/-- Rendered line of one finding; a line number is shown only when it is
present and nonzero (`if s.get("line")`). -/
def smellLine (s : Smell) : String :=
  "- [" ++ s.ty ++ "] " ++ s.file
    ++ (match s.line with
        | some n => if n ≠ 0 then ":" ++ Nat.repr n else ""
        | none => "")
    ++ " — " ++ s.detail

/-- Lines of one finding kind within a severity, capped at 15 shown
items (`MAX_PER_TYPE`). -/
def typeBlock (t : String) (items : List Smell) : List String :=
  (items.take 15).map smellLine
  ++ (if 15 < items.length then
        ["  ... and " ++ Nat.repr (items.length - 15) ++ " more " ++ t ++ " issues"]
      else [])

/-- Lines of one severity section. -/
def severitySection (active : List Smell) (sev : String) : List String :=
  let items := active.filter (fun s => s.severity = sev)
  if items = [] then []
  else
    let sorted_items := sortSmellsByLoc items
    let tys := dedupAux (sorted_items.map Smell.ty) []
    ["## " ++ severityLabel sev ++ "\n"]
    ++ tys.flatMap (fun t => typeBlock t (sorted_items.filter (fun s => s.ty = t)))
    ++ [""]

/-- Report assembly (`format_output`): summary, per-directory structure,
severity-grouped findings, joined with newlines. -/
def format_output (cfg : MapperConfig) (st : MapperState) : String :=
  let active := st.smells.filter (fun s => ¬ cfg.skip_smells.contains s.ty)
  let total_lines := (st.file_data.map (fun e => e.2.line_count)).sum
  let total_classes := (st.file_data.map (fun e => e.2.classes.length)).sum
  let total_functions := (st.file_data.map (fun e => e.2.functions.length)).sum
  let lang_breakdown := pyJoin ", "
    ((sortByCountDesc (langCounts st.file_data)).map
      (fun e => pyCapitalize e.1 ++ " (" ++ Nat.repr e.2 ++ ")"))
  let sortedPaths := pySortStrings (st.file_data.map Prod.fst)
  let dirNames := pySortStrings (dedupAux (sortedPaths.map topDir) [])
  let headerLines := ["# Codebase Structure (" ++ Nat.repr st.files_parsed ++ " files parsed)\n"]
  let summaryLines :=
    ["## Summary\n",
     "- **Files parsed**: " ++ Nat.repr st.files_parsed,
     "- **Languages**: " ++ lang_breakdown,
     "- **Total lines**: " ++ commaFmt total_lines,
     "- **Classes**: " ++ Nat.repr total_classes
       ++ " | **Functions**: " ++ Nat.repr total_functions,
     "- **Smells**: " ++ Nat.repr (sevCount active "high") ++ " high, "
       ++ Nat.repr (sevCount active "medium") ++ " medium, "
       ++ Nat.repr (sevCount active "low") ++ " low",
     ""]
  let dirLines := dirNames.flatMap (fun d =>
    ("## " ++ d ++ "/\n")
    :: (sortedPaths.filter (fun p => topDir p = d)).flatMap (fun p =>
        match List.lookup p st.file_data with
        | some info => fileEntryLines p info
        | none => []))
  let smellLines :=
    if active ≠ [] then
      ("\n# Code Smells (" ++ Nat.repr active.length ++ " issues found)\n")
      :: (["high", "medium", "low"].flatMap (severitySection active))
    else
      ["\n# Code Smells (0 issues found)\n", "No code smells detected. Nice!\n"]
  pyJoin "\n" (headerLines ++ summaryLines ++ dirLines ++ smellLines)

/-! ## Entry point -/

/-- The complete corpus state after the three detector passes (the body
of `main` between `scan` and `format_output`).  Two set-iteration
orders are left open by the program, because CPython hashes strings
with a per-process seed: `setOrder` models the iteration order of the
`known_modules` set, and `edgeOrder` models, per module, the iteration
order of that module's import set (`import_graph` maps each module to
a `set`, iterated by the cycle search); the `import_graph` keys
themselves are dict keys, whose insertion order Python does fix. -/
def analysisState (cfg : MapperConfig) (dirs : List (String × List String))
    (lookup : String → Option SrcFile) (setOrder : List String → List String)
    (edgeOrder : String → List String → List String) :
    MapperState :=
  let st0 := scan cfg dirs lookup
  let circ := detect_circular_imports
    (st0.import_graph.map (fun e => (e.1, edgeOrder e.1 e.2)))
    (setOrder (st0.import_graph.map Prod.fst))
  let st1 : MapperState := { st0 with smells := st0.smells ++ circ }
  let unused := detect_unused_imports st1.file_data (fun rp => (lookup rp).map SrcFile.source)
  let st2 : MapperState := { st1 with smells := st1.smells ++ unused }
  { st2 with smells := st2.smells ++ detect_duplicate_logic st2.function_bodies }

/-- Full run: scan, the three corpus passes, then formatting. -/
def runAnalysis (cfg : MapperConfig) (dirs : List (String × List String))
    (lookup : String → Option SrcFile) (setOrder : List String → List String)
    (edgeOrder : String → List String → List String) : String :=
  format_output cfg (analysisState cfg dirs lookup setOrder edgeOrder)

/-! ## Visitor characterisation lemmas -/

/-- Findings the function visitor appends for a named function node. -/
def fnSmells (cfg : MapperConfig) (n : Node) (rel_path lang nm : String) : List Smell :=
  let func_lines := n.endRow - n.startRow + 1
  (if cfg.long_func_lines < func_lines then
    [⟨"LONG_FUNCTION", "medium", rel_path, some (n.startRow + 1),
      nm ++ "() is " ++ Nat.repr func_lines ++ " lines"⟩]
  else [])
  ++ (if cfg.deep_nesting_levels < count_nesting_depth n 0 then
    [⟨"DEEP_NESTING", "medium", rel_path, some (n.startRow + 1),
      nm ++ "() has " ++ Nat.repr (count_nesting_depth n 0) ++ " nesting levels"⟩]
  else [])
  ++ (if cfg.many_params < (get_function_params n).length then
    [⟨"MANY_PARAMS", "medium", rel_path, some (n.startRow + 1),
      nm ++ "() has " ++ Nat.repr (get_function_params n).length ++ " parameters"⟩]
  else [])
  ++ (if lang = "python" ∧ has_docstring n = false
        ∧ pyStartsWith nm "_" = false ∧ pyStartsWith nm "test_" = false
        ∧ pyStartsWith rel_path "tests/" = false then
    [⟨"MISSING_DOCSTRING", "low", rel_path, some (n.startRow + 1), nm ++ "()"⟩]
  else [])

theorem functionVisit_spec (cfg : MapperConfig) (n : Node) (ctx : FileContext) (nm : String)
    (hfn : ctx.node_types.functions.contains n.ty = true)
    (hname : get_node_name n = some nm) (hnm : nm ≠ "") :
    functionVisit cfg n ctx =
      { ctx with
        functions := ctx.functions ++ [nm],
        smells := ctx.smells ++ fnSmells cfg n ctx.rel_path ctx.lang nm,
        function_bodies := ctx.function_bodies ++
          (if 10 ≤ n.endRow - n.startRow + 1 then [(nm, n.startRow + 1, n.text)] else []) } := by
  unfold functionVisit fnSmells
  rw [hname]
  simp only [hfn, Bool.true_eq_false, not_false_eq_true, if_true, ite_not, if_neg hnm]
  split_ifs <;> simp_all

/-- Method count of a class node (direct method-shaped members of the
body-shaped children). -/
def classMethodCount (n : Node) : Nat :=
  (n.children.map (fun child =>
    if ["block", "class_body", "declaration_list", "field_declaration_list"].contains child.ty then
      (child.children.filter (fun m =>
        ["function_definition", "method_definition", "method_declaration",
         "function_item", "function_declaration"].contains m.ty)).length
    else 0)).sum

/-- Findings the class visitor appends for a named class node. -/
def clsSmells (cfg : MapperConfig) (n : Node) (rel_path lang nm : String) : List Smell :=
  (if cfg.god_class_methods < classMethodCount n then
    [⟨"GOD_CLASS", "high", rel_path, some (n.startRow + 1),
      nm ++ " has " ++ Nat.repr (classMethodCount n) ++ " methods"⟩]
  else [])
  ++ (if lang = "python" ∧ has_docstring n = false
        ∧ pyStartsWith rel_path "tests/" = false then
    [⟨"MISSING_DOCSTRING", "low", rel_path, some (n.startRow + 1), "class " ++ nm⟩]
  else [])

theorem classVisit_spec (cfg : MapperConfig) (n : Node) (ctx : FileContext) (nm : String)
    (hcl : ctx.node_types.classes.contains n.ty = true)
    (hname : get_node_name n = some nm) (hnm : nm ≠ "") :
    classVisit cfg n ctx =
      { ctx with
        classes := ctx.classes ++ [nm],
        smells := ctx.smells ++ clsSmells cfg n ctx.rel_path ctx.lang nm } := by
  unfold classVisit clsSmells classMethodCount
  rw [hname]
  simp only [hcl, Bool.true_eq_false, not_false_eq_true, if_true, ite_not, if_neg hnm]
  split_ifs <;> simp_all

/-- C10: a node of a function-role type from which no name can be
extracted contributes nothing at all: the visitor leaves the context
unchanged (no entity, no finding, no captured body). -/
theorem c10_unnamed_function_records_nothing (cfg : MapperConfig) (n : Node)
    (ctx : FileContext)
    (hfn : ctx.node_types.functions.contains n.ty = true)
    (hname : get_node_name n = none) :
    functionVisit cfg n ctx = ctx := by
  unfold functionVisit
  rw [hname]
  simp [hfn]

/-- Witness for C10 at a concrete nameless 61-line Python function node. -/
theorem c10_witness :
    ((emptyCtx "a.py" "python" (LANG_NODE_TYPES "python") "").node_types.functions.contains
        (Node.ty (Node.mk "function_definition" "def ..." 0 60 true [])) = true)
    ∧ get_node_name (Node.mk "function_definition" "def ..." 0 60 true []) = none
    ∧ functionVisit defaultConfig (Node.mk "function_definition" "def ..." 0 60 true [])
        (emptyCtx "a.py" "python" (LANG_NODE_TYPES "python") "")
      = emptyCtx "a.py" "python" (LANG_NODE_TYPES "python") "" :=
  ⟨by decide, by decide,
   c10_unnamed_function_records_nothing defaultConfig _ _ (by decide) (by decide)⟩

/-- C6: for a named function node, a line span of exactly
`threshold + 1` appends exactly one LONG_FUNCTION finding and a span of
exactly `threshold` appends none. -/
theorem c6_long_function_boundary (cfg : MapperConfig) (n : Node) (ctx : FileContext)
    (nm : String)
    (hfn : ctx.node_types.functions.contains n.ty = true)
    (hname : get_node_name n = some nm) (hnm : nm ≠ "") :
    (n.endRow - n.startRow + 1 = cfg.long_func_lines + 1 →
      ((functionVisit cfg n ctx).smells.countP (fun s => s.ty == "LONG_FUNCTION"))
        = ctx.smells.countP (fun s => s.ty == "LONG_FUNCTION") + 1)
    ∧ (n.endRow - n.startRow + 1 = cfg.long_func_lines →
      ((functionVisit cfg n ctx).smells.countP (fun s => s.ty == "LONG_FUNCTION"))
        = ctx.smells.countP (fun s => s.ty == "LONG_FUNCTION")) := by
  rw [functionVisit_spec cfg n ctx nm hfn hname hnm]
  constructor <;> intro h <;>
    simp only [fnSmells, h, List.countP_append] <;>
    split_ifs <;> simp_all [List.countP_cons]

/-- Concrete 51-line named function node (empty body, no parameters). -/
def exSpanNode (endRow : Nat) : Node :=
  Node.mk "function_definition" "def f(): ..." 0 endRow true
    [Node.mk "identifier" "f" 0 0 true []]

/-- Witness for C6: spans 51 and 50 against the default threshold 50. -/
theorem c6_witness :
    ((emptyCtx "a.py" "python" (LANG_NODE_TYPES "python") "").node_types.functions.contains
      (Node.ty (exSpanNode 50)) = true)
    ∧ get_node_name (exSpanNode 50) = some "f"
    ∧ (((exSpanNode 50).endRow - (exSpanNode 50).startRow + 1
          = defaultConfig.long_func_lines + 1 →
        ((functionVisit defaultConfig (exSpanNode 50)
            (emptyCtx "a.py" "python" (LANG_NODE_TYPES "python") "")).smells.countP
              (fun s => s.ty == "LONG_FUNCTION"))
          = (emptyCtx "a.py" "python" (LANG_NODE_TYPES "python") "").smells.countP
              (fun s => s.ty == "LONG_FUNCTION") + 1)
      ∧ ((exSpanNode 50).endRow - (exSpanNode 50).startRow + 1
          = defaultConfig.long_func_lines →
        ((functionVisit defaultConfig (exSpanNode 50)
            (emptyCtx "a.py" "python" (LANG_NODE_TYPES "python") "")).smells.countP
              (fun s => s.ty == "LONG_FUNCTION"))
          = (emptyCtx "a.py" "python" (LANG_NODE_TYPES "python") "").smells.countP
              (fun s => s.ty == "LONG_FUNCTION"))) :=
  ⟨by decide, by decide,
   c6_long_function_boundary defaultConfig (exSpanNode 50) _ "f"
     (by decide) (by decide) (by decide)⟩

/-- C7: under the default thresholds, visiting a named function node
with a 51-line span, control-flow nesting depth 5 and 6 declared
parameters (with the Python docstring heuristic not applicable) appends
exactly the three findings LONG_FUNCTION, DEEP_NESTING and MANY_PARAMS,
no more and no fewer. -/
theorem c7_default_threshold_scenario (n : Node) (ctx : FileContext) (nm : String)
    (hfn : ctx.node_types.functions.contains n.ty = true)
    (hname : get_node_name n = some nm) (hnm : nm ≠ "")
    (hdoc : ctx.lang = "python" → has_docstring n = true)
    (hspan : n.endRow - n.startRow + 1 = 51)
    (hdepth : count_nesting_depth n 0 = 5)
    (hparams : (get_function_params n).length = 6) :
    (functionVisit defaultConfig n ctx).smells.map Smell.ty
      = ctx.smells.map Smell.ty ++ ["LONG_FUNCTION", "DEEP_NESTING", "MANY_PARAMS"] := by
  rw [functionVisit_spec defaultConfig n ctx nm hfn hname hnm]
  simp only [fnSmells, hspan, hdepth, hparams, defaultConfig]
  have hnodoc : ¬ (ctx.lang = "python" ∧ has_docstring n = false
      ∧ pyStartsWith nm "_" = false ∧ pyStartsWith nm "test_" = false
      ∧ pyStartsWith ctx.rel_path "tests/" = false) := by
    rintro ⟨hpy, hd, -⟩
    rw [hdoc hpy] at hd
    exact Bool.true_eq_false.mp hd
  simp [hnodoc]

/-- Chain of `count` nested if statements. -/
def ifChain : Nat → Node
  | 0 => Node.mk "expression_statement" "x" 6 6 true []
  | d + 1 => Node.mk "if_statement" "if (x) ..." 1 49 true [ifChain d]

/-- Concrete scenario function for C7: a JavaScript function with a
51-line span, 6 parameters and an if-chain of depth 5. -/
def exC7Node : Node :=
  Node.mk "function_declaration" "function big(a, b, c, d, e, f) ..." 0 50 true
    [Node.mk "identifier" "big" 0 0 true [],
     Node.mk "formal_parameters" "(a, b, c, d, e, f)" 0 0 true
       [Node.mk "identifier" "a" 0 0 true [],
        Node.mk "identifier" "b" 0 0 true [],
        Node.mk "identifier" "c" 0 0 true [],
        Node.mk "identifier" "d" 0 0 true [],
        Node.mk "identifier" "e" 0 0 true [],
        Node.mk "identifier" "f" 0 0 true []],
     Node.mk "statement_block" "" 1 50 true [ifChain 5]]

/-- Witness for C7 at the concrete scenario node. -/
theorem c7_witness :
    (functionVisit defaultConfig exC7Node
        (emptyCtx "web/app.js" "javascript" (LANG_NODE_TYPES "javascript") "")).smells.map
        Smell.ty
      = (emptyCtx "web/app.js" "javascript" (LANG_NODE_TYPES "javascript") "").smells.map
          Smell.ty ++ ["LONG_FUNCTION", "DEEP_NESTING", "MANY_PARAMS"] :=
  c7_default_threshold_scenario exC7Node _ "big" (by decide) (by decide) (by decide)
    (fun h => absurd h (by decide)) (by decide) (by decide) (by decide)

/-! ## C4: the missing-docstring rule for classes -/

/-- Modelled from the claim's words, for comparison with the code: a
class counts as documented iff the first statement of its body is a
free-floating string (an expression statement containing a string) or a
comment literal. -/
def claimDocumented (n : Node) : Bool :=
  match firstBlockChild n.children with
  | none => false
  | some body =>
    match body.children with
    | [] => false
    | c :: _ =>
      (c.ty == "expression_statement" && c.children.any (fun sub => sub.ty == "string"))
        || c.ty == "comment"

/-- Documentation predicate as the code implements it, stated
declaratively: leading comments are skipped, and the next statement
must be an expression statement containing a string; a node without a
body block is assumed documented. -/
def amendedDocumented (n : Node) : Bool :=
  match firstBlockChild n.children with
  | none => true
  | some body =>
    match body.children.dropWhile (fun c => c.ty == "comment") with
    | [] => false
    | c :: _ =>
      c.ty == "expression_statement" && c.children.any (fun sub => sub.ty == "string")

theorem docstringScan_dropWhile (l : List Node) :
    docstringScan l =
      (match l.dropWhile (fun c => c.ty == "comment") with
       | [] => false
       | c :: _ =>
         c.ty == "expression_statement" && c.children.any (fun sub => sub.ty == "string")) := by
  induction l with
  | nil => rfl
  | cons c cs ih =>
    by_cases hex : c.ty = "expression_statement"
    · simp [docstringScan, hex, List.dropWhile]
    · by_cases hc : c.ty = "comment"
      · simp [docstringScan, hex, hc, List.dropWhile, ih]
      · have h1 : (c.ty == "comment") = false := by simpa using hc
        have h2 : (c.ty == "expression_statement") = false := by simpa using hex
        simp [docstringScan, hex, hc, List.dropWhile, h1, h2]

theorem has_docstring_eq_amended (n : Node) : has_docstring n = amendedDocumented n := by
  unfold has_docstring amendedDocumented
  cases firstBlockChild n.children with
  | none => rfl
  | some body => simpa using docstringScan_dropWhile body.children

/-- Concrete Python class whose body opens with a comment followed by a
`pass` statement. -/
def exC4Node : Node :=
  Node.mk "class_definition" "class C:\n    # documented by a comment\n    pass" 0 2 true
    [Node.mk "identifier" "C" 0 0 true [],
     Node.mk "block" "" 1 2 true
       [Node.mk "comment" "# documented by a comment" 1 1 true [],
        Node.mk "pass_statement" "pass" 2 2 true []]]

/-- C4 counterexample: by the claim's definition this class is
documented (its first body statement is a comment literal), yet the
class visitor flags MISSING_DOCSTRING for it. -/
theorem c4_counterexample :
    claimDocumented exC4Node = true
    ∧ (classVisit defaultConfig exC4Node
        (emptyCtx "pkg/mod.py" "python" (LANG_NODE_TYPES "python") "")).smells.countP
        (fun s => s.ty == "MISSING_DOCSTRING") = 1 := by
  constructor
  · decide
  · decide

/-- C4 (amended): for a Python class node with an extractable nonempty
name outside `tests/`, the class visitor appends MISSING_DOCSTRING
exactly when the class is undocumented, where documented means the
first body statement after leading comments is a free-floating string
literal, and a class without a body block counts as documented. -/
theorem c4_missing_doc_rule (cfg : MapperConfig) (n : Node) (ctx : FileContext)
    (nm : String)
    (hcl : ctx.node_types.classes.contains n.ty = true)
    (hname : get_node_name n = some nm) (hnm : nm ≠ "")
    (hlang : ctx.lang = "python")
    (htest : pyStartsWith ctx.rel_path "tests/" = false) :
    (classVisit cfg n ctx).smells.countP (fun s => s.ty == "MISSING_DOCSTRING")
      = ctx.smells.countP (fun s => s.ty == "MISSING_DOCSTRING")
        + (if amendedDocumented n then 0 else 1) := by
  rw [classVisit_spec cfg n ctx nm hcl hname hnm]
  simp only [clsSmells, List.countP_append, hlang, htest, has_docstring_eq_amended]
  split_ifs <;> simp_all [List.countP_cons]

/-- Witness for C4 at the concrete class node above. -/
theorem c4_witness :
    (classVisit defaultConfig exC4Node
        (emptyCtx "pkg/mod.py" "python" (LANG_NODE_TYPES "python") "")).smells.countP
        (fun s => s.ty == "MISSING_DOCSTRING")
      = (emptyCtx "pkg/mod.py" "python" (LANG_NODE_TYPES "python") "").smells.countP
          (fun s => s.ty == "MISSING_DOCSTRING")
        + (if amendedDocumented exC4Node then 0 else 1) :=
  c4_missing_doc_rule defaultConfig exC4Node _ "C" (by decide) (by decide) (by decide)
    (by decide) (by decide)

/-! ## C5: body normalisation -/

/-- Trailing-whitespace trim. -/
def pyRTrim (s : String) : String :=
  ⟨(s.data.reverse.dropWhile pyWhitespaceChar).reverse⟩

/-- Modelled from the claim's words, for comparison with the code: keep
every line that is neither blank nor a full-line comment, trimming only
its trailing whitespace. -/
def claimNormalize (source : String) : String :=
  pyJoin "\n" ((pySplitlines source).filterMap (fun line =>
    let stripped := pyStrip line
    if stripped ≠ "" ∧ pyStartsWith stripped "#" = false ∧ pyStartsWith stripped "//" = false
    then some (pyRTrim line) else none))

/-- C5 counterexample: an indented statement line survives with its
leading whitespace removed, not merely its trailing whitespace, so the
surviving text differs from the claim's and is not a line of the
original. -/
theorem c5_counterexample :
    normalizeFB "  x = 1" = "x = 1"
    ∧ claimNormalize "  x = 1" = "  x = 1"
    ∧ normalizeFB "  x = 1" ≠ claimNormalize "  x = 1" := by
  refine ⟨by decide, by decide, by decide⟩

theorem filterMap_if_eq_map_filter {α β : Type} (p : α → Bool) (f : α → β) (l : List α) :
    l.filterMap (fun a => if p a = true then some (f a) else none) = (l.filter p).map f := by
  induction l with
  | nil => rfl
  | cons a l ih => by_cases h : p a <;> simp [List.filterMap_cons, List.filter_cons, h, ih]

/-- The keep test of the normalisation, as a Boolean. -/
def keepLine (line : String) : Bool :=
  decide (pyStrip line ≠ "" ∧ pyStartsWith (pyStrip line) "#" = false
    ∧ pyStartsWith (pyStrip line) "//" = false)

/-- C5 (amended): normalisation keeps exactly the lines that are neither
blank nor full-line comments, in their original relative order (the
kept lines form a sublist of the split lines), and each surviving line
is the kept line stripped of leading and trailing whitespace. -/
theorem c5_normalize_characterisation (source : String) :
    ∃ kept : List String,
      kept.Sublist (pySplitlines source)
      ∧ (∀ line ∈ pySplitlines source,
          (line ∈ kept ↔ (pyStrip line ≠ "" ∧ pyStartsWith (pyStrip line) "#" = false
            ∧ pyStartsWith (pyStrip line) "//" = false)))
      ∧ normalizeFB source = pyJoin "\n" (kept.map pyStrip) := by
  refine ⟨(pySplitlines source).filter keepLine, List.filter_sublist _, ?_, ?_⟩
  · intro line _
    simp [List.mem_filter, keepLine]
    tauto
  · unfold normalizeFB
    rw [← filterMap_if_eq_map_filter keepLine pyStrip]
    have hfun : (fun line =>
        let stripped := pyStrip line
        if stripped ≠ "" ∧ pyStartsWith stripped "#" = false
            ∧ pyStartsWith stripped "//" = false then
          some stripped
        else none)
        = (fun a => if keepLine a = true then some (pyStrip a) else none) := by
      funext line
      simp [keepLine]
    rw [hfun]

/-! ## C3: unused imports -/

/-- Modelled from the claim's words, for comparison with the code: a
plain import item binds the alias if present, else the LAST dotted
component of the module path. -/
def claimPlainNames (rest : String) : List String :=
  (pySplitOnChar ',' rest).filterMap (fun item0 =>
    let item := pyStrip item0
    if pyContains item " as " then some (pyStrip ((pySplitOnSub " as " item).getLastD ""))
    else
      let name := pyStrip ((pySplitOnChar '.' item).getLastD "")
      if name ≠ "" then some name else none)

/-- Modelled from the claim's words: name extraction with the last
dotted component for plain imports. -/
def claim_extract_imported_names (imp_text : String) : List String :=
  let parts := pySplitWS imp_text
  match parts with
  | [] => []
  | p0 :: _ =>
    if p0 = "from" ∧ parts.contains "import" then
      extractFromNames
        (pyStripChars ['(', ')'] (pyJoin " " (parts.drop (idxOfStr parts "import" + 1))))
    else if p0 = "import" then
      claimPlainNames (pyJoin " " (parts.drop 1))
    else []

/-- Modelled from the claim's words: the unused-import check with the
claim's name extraction. -/
def claimUnusedForFile (rel_path : String) (info : FileData) (source_text : String) :
    List Smell :=
  info.imports.flatMap (fun imp_text =>
    (claim_extract_imported_names imp_text).filterMap (fun name =>
      if name ≠ "" ∧ name ≠ "*" ∧ pyContains (nonImportText source_text) name = false
      then some (mkUnusedSmell rel_path name) else none))

def exC3Info : FileData :=
  ⟨"python", [], [], ["import os.path"], [], [], 3⟩

/-- C3 counterexample: for `import os.path` used only through the name
`path`, the pass flags the first dotted component `os` as unused, while
the claim (last dotted component, `path`, which does occur) predicts no
finding. -/
theorem c3_counterexample :
    detect_unused_imports [("m.py", exC3Info)] (fun _ => some "import os.path\nx = path\n")
      = [mkUnusedSmell "m.py" "os"]
    ∧ claimUnusedForFile "m.py" exC3Info "import os.path\nx = path\n" = [] := by
  refine ⟨by decide, by decide⟩

theorem mkUnusedSmell_inj {r1 n1 r2 n2 : String}
    (h : mkUnusedSmell r1 n1 = mkUnusedSmell r2 n2) : r1 = r2 ∧ n1 = n2 := by
  unfold mkUnusedSmell at h
  obtain ⟨-, -, hfile, -, hdetail⟩ := Smell.mk.injEq .. |>.mp h
  refine ⟨hfile, ?_⟩
  have hd := congrArg String.data hdetail
  simp only [String.data_append] at hd
  have hdd : n1.data = n2.data := by
    have := List.append_cancel_right (List.cons_injective.eq_iff.mp hd)
    exact this
  cases n1; cases n2
  exact congrArg String.mk hdd

/-- C3 (amended): the unused-import pass emits an UNUSED_IMPORT finding
for name `n` in file `rel` exactly when `rel` is a recorded Python file
whose source is readable, some recorded import statement binds `n`
(the alias if present; for plain imports the FIRST dotted component;
wildcards never), and `n` does not occur as a literal substring of the
non-import lines. -/
theorem c3_unused_import_rule (file_data : List (String × FileData))
    (readSource : String → Option String) (rel n : String) :
    mkUnusedSmell rel n ∈ detect_unused_imports file_data readSource
    ↔ ∃ e ∈ file_data, e.1 = rel ∧ e.2.lang = "python"
        ∧ (∃ src, readSource rel = some src
            ∧ (∃ imp ∈ e.2.imports, n ∈ _extract_imported_names imp)
            ∧ n ≠ "" ∧ n ≠ "*"
            ∧ pyContains (nonImportText src) n = false) := by
  unfold detect_unused_imports
  simp only [List.mem_flatMap]
  constructor
  · rintro ⟨e, he, hmem⟩
    by_cases hlang : e.2.lang ≠ "python"
    · rw [if_pos hlang] at hmem
      simp at hmem
    · rw [if_neg hlang] at hmem
      push_neg at hlang
      cases hsrc : readSource e.1 with
      | none => rw [hsrc] at hmem; simp at hmem
      | some src =>
        rw [hsrc] at hmem
        unfold unusedForFile at hmem
        simp only [List.mem_flatMap, List.mem_filterMap] at hmem
        obtain ⟨imp, himp, name, hname, heq⟩ := hmem
        by_cases hcond : name ≠ "" ∧ name ≠ "*"
            ∧ pyContains (nonImportText src) name = false
        · rw [if_pos hcond] at heq
          obtain ⟨hrel, hn⟩ := mkUnusedSmell_inj (Option.some_inj.mp heq)
          subst hrel
          subst hn
          exact ⟨e, he, rfl, hlang, src, hsrc, ⟨imp, himp, hname⟩, hcond⟩
        · rw [if_neg hcond] at heq
          exact absurd heq (by simp)
  · rintro ⟨e, he, hrel, hlang, src, hsrc, ⟨imp, himp, hname⟩, hcond⟩
    refine ⟨e, he, ?_⟩
    rw [if_neg (by simp [hlang]), hrel, hsrc]
    unfold unusedForFile
    simp only [List.mem_flatMap, List.mem_filterMap]
    refine ⟨imp, himp, n, hname, ?_⟩
    rw [if_pos hcond]

/-! ## C2: cycle deduplication -/

theorem charToNat_inj {a b : Char} (h : a.toNat = b.toNat) : a = b := by
  exact_mod_cast Char.ofNat_toNat a ▸ Char.ofNat_toNat b ▸ congrArg Char.ofNat h

theorem listCharLeB_cons (a b : Char) (as bs : List Char) :
    listCharLeB (a :: as) (b :: bs)
      = if a.toNat < b.toNat then true
        else if b.toNat < a.toNat then false
        else listCharLeB as bs := rfl

theorem listCharLeB_cons_iff (a b : Char) (as bs : List Char) :
    listCharLeB (a :: as) (b :: bs) = true ↔
      a.toNat < b.toNat ∨ (a.toNat = b.toNat ∧ listCharLeB as bs = true) := by
  rw [listCharLeB_cons]
  split_ifs with h1 h2
  · simp [h1]
  · simp only [Bool.false_eq_true, false_iff]
    rintro (h | ⟨h, -⟩) <;> omega
  · have heq : a.toNat = b.toNat := by omega
    simp [heq, h1]

theorem listCharLeB_total (x : List Char) :
    ∀ y, listCharLeB x y = true ∨ listCharLeB y x = true := by
  induction x with
  | nil => intro y; left; rfl
  | cons a as ih =>
    intro y
    cases y with
    | nil => right; rfl
    | cons b bs =>
      rcases Nat.lt_trichotomy a.toNat b.toNat with h | h | h
      · left; rw [listCharLeB_cons_iff]; exact Or.inl h
      · rcases ih bs with h2 | h2
        · left; rw [listCharLeB_cons_iff]; exact Or.inr ⟨h, h2⟩
        · right; rw [listCharLeB_cons_iff]; exact Or.inr ⟨h.symm, h2⟩
      · right; rw [listCharLeB_cons_iff]; exact Or.inl h

theorem listCharLeB_nil_false (a : Char) (as : List Char) :
    listCharLeB (a :: as) [] = false := rfl

theorem listCharLeB_trans (x : List Char) :
    ∀ y z, listCharLeB x y = true → listCharLeB y z = true → listCharLeB x z = true := by
  induction x with
  | nil => intro y z _ _; rfl
  | cons a as ih =>
    intro y z hxy hyz
    cases y with
    | nil => rw [listCharLeB_nil_false] at hxy; exact absurd hxy (by simp)
    | cons b bs =>
      cases z with
      | nil => rw [listCharLeB_nil_false] at hyz; exact absurd hyz (by simp)
      | cons c cs =>
        rw [listCharLeB_cons_iff] at hxy hyz ⊢
        rcases hxy with h1 | ⟨h1, h1'⟩ <;> rcases hyz with h2 | ⟨h2, h2'⟩
        · exact Or.inl (by omega)
        · exact Or.inl (by omega)
        · exact Or.inl (by omega)
        · exact Or.inr ⟨by omega, ih bs cs h1' h2'⟩

theorem listCharLeB_antisymm (x : List Char) :
    ∀ y, listCharLeB x y = true → listCharLeB y x = true → x = y := by
  induction x with
  | nil =>
    intro y _ hyx
    cases y with
    | nil => rfl
    | cons b bs => rw [listCharLeB_nil_false] at hyx; exact absurd hyx (by simp)
  | cons a as ih =>
    intro y hxy hyx
    cases y with
    | nil => rw [listCharLeB_nil_false] at hxy; exact absurd hxy (by simp)
    | cons b bs =>
      rw [listCharLeB_cons_iff] at hxy hyx
      have hab : a.toNat = b.toNat := by
        rcases hxy with h1 | ⟨h1, -⟩ <;> rcases hyx with h2 | ⟨h2, -⟩ <;> omega
      have : a = b := charToNat_inj hab
      subst this
      rcases hxy with h1 | ⟨-, h1'⟩
      · omega
      · rcases hyx with h2 | ⟨-, h2'⟩
        · omega
        · rw [ih bs h1' h2']

instance : IsTotal String strle :=
  ⟨fun a b => listCharLeB_total a.data b.data⟩

instance : IsTrans String strle :=
  ⟨fun a b c => listCharLeB_trans a.data b.data c.data⟩

instance : IsAntisymm String strle :=
  ⟨fun a b h1 h2 => by
    cases a; cases b
    exact congrArg String.mk (listCharLeB_antisymm _ _ h1 h2)⟩

theorem dedupFold_spec (cs : List (List String)) :
    ∀ (acc : List (List String) × List String),
      acc.1.Pairwise (fun c d => cycleKey c ≠ cycleKey d) →
      (∀ c ∈ acc.1, cycleKey c ∈ acc.2) →
      ((cs.foldl
        (fun (acc : List (List String) × List String) cycle =>
          if acc.2.contains (cycleKey cycle) then acc
          else (acc.1 ++ [cycle], acc.2 ++ [cycleKey cycle])) acc).1.Pairwise
          (fun c d => cycleKey c ≠ cycleKey d)
      ∧ (∀ c ∈ (cs.foldl
          (fun (acc : List (List String) × List String) cycle =>
            if acc.2.contains (cycleKey cycle) then acc
            else (acc.1 ++ [cycle], acc.2 ++ [cycleKey cycle])) acc).1,
          c ∈ acc.1 ∨ c ∈ cs)) := by
  induction cs with
  | nil =>
    intro acc h1 _
    exact ⟨h1, fun c hc => Or.inl hc⟩
  | cons cycle rest ih =>
    intro acc h1 h2
    simp only [List.foldl_cons]
    by_cases hseen : acc.2.contains (cycleKey cycle) = true
    · rw [if_pos hseen]
      obtain ⟨r1, r2⟩ := ih acc h1 h2
      exact ⟨r1, fun c hc => (r2 c hc).imp id (List.mem_cons_of_mem _)⟩
    · rw [if_neg hseen]
      have hseen' : cycleKey cycle ∉ acc.2 := by simpa using hseen
      have h1' : (acc.1 ++ [cycle]).Pairwise (fun c d => cycleKey c ≠ cycleKey d) := by
        rw [List.pairwise_append]
        refine ⟨h1, List.pairwise_singleton _ _, ?_⟩
        intro c hc d hd
        rw [List.mem_singleton] at hd
        subst hd
        intro heq
        exact hseen' (heq ▸ h2 c hc)
      have h2' : ∀ c ∈ acc.1 ++ [cycle], cycleKey c ∈ acc.2 ++ [cycleKey cycle] := by
        intro c hc
        rcases List.mem_append.mp hc with h | h
        · exact List.mem_append.mpr (Or.inl (h2 c h))
        · rw [List.mem_singleton] at h
          subst h
          simp
      obtain ⟨r1, r2⟩ := ih (acc.1 ++ [cycle], acc.2 ++ [cycleKey cycle]) h1' h2'
      refine ⟨r1, fun c hc => ?_⟩
      rcases r2 c hc with hin | hin
      · rcases List.mem_append.mp hin with h | h
        · exact Or.inl h
        · rw [List.mem_singleton] at h
          subst h
          exact Or.inr (List.mem_cons_self _ _)
      · exact Or.inr (List.mem_cons_of_mem _ hin)

theorem dedupCycles_spec (cs : List (List String)) :
    (dedupCycles cs).Pairwise (fun c d => cycleKey c ≠ cycleKey d)
    ∧ ∀ c ∈ dedupCycles cs, c ∈ cs := by
  have h := dedupFold_spec cs ([], []) List.Pairwise.nil (by simp)
  exact ⟨h.1, fun c hc => (h.2 c hc).resolve_left (by simp)⟩

theorem dfs_succ (g : List (String × List String)) (knowns : List String)
    (fuel : Nat) (module : String) (path : List String) (st : DfsState) :
    dfs g knowns (fuel + 1) module path st
      = ((List.lookup module g).getD []).foldl
          (fun (acc : DfsState) imported =>
            match matchImported knowns module imported knowns with
            | none => acc
            | some matched =>
              if (path ++ [module]).contains matched then
                { acc with cycles := acc.cycles ++
                    [(path ++ [module]).drop (idxOfStr (path ++ [module]) matched)
                      ++ [matched]] }
              else if ¬ acc.visited.contains matched then
                dfs g knowns fuel matched (path ++ [module]) acc
              else acc)
          (dfsMark st module) := rfl

theorem dfs_spec (g : List (String × List String)) (knowns : List String) :
    ∀ (fuel : Nat) (module : String) (path : List String) (st : DfsState),
      (path ++ [module]).Nodup → (∀ x ∈ path, x ∈ st.visited) →
      (∀ c ∈ st.cycles, c.dropLast.Nodup) →
      (∀ x ∈ st.visited, x ∈ (dfs g knowns fuel module path st).visited)
      ∧ (∀ c ∈ (dfs g knowns fuel module path st).cycles, c.dropLast.Nodup) := by
  intro fuel
  induction fuel with
  | zero =>
    intro module path st _ _ h3
    exact ⟨fun x hx => hx, h3⟩
  | succ fuel ih =>
    intro module path st hnodup hsub hcyc
    rw [dfs_succ]
    set st1 : DfsState := dfsMark st module with hst1
    have hmono1 : ∀ x ∈ st.visited, x ∈ st1.visited := by
      intro x hx
      rw [hst1]
      unfold dfsMark
      dsimp only
      split_ifs <;> simp [hx]
    have hmodmem : module ∈ st1.visited := by
      rw [hst1]
      unfold dfsMark
      dsimp only
      split_ifs with h
      · simpa using h
      · simp
    have hpath' : ∀ x ∈ path ++ [module], x ∈ st1.visited := by
      intro x hx
      rcases List.mem_append.mp hx with h | h
      · exact hmono1 x (hsub x h)
      · rw [List.mem_singleton] at h
        subst h
        exact hmodmem
    have hcyc1 : ∀ c ∈ st1.cycles, c.dropLast.Nodup := by
      rw [hst1]
      unfold dfsMark
      exact hcyc
    have key : ∀ (imps : List String) (acc : DfsState),
        (∀ x ∈ path ++ [module], x ∈ acc.visited) →
        (∀ c ∈ acc.cycles, c.dropLast.Nodup) →
        (∀ x ∈ acc.visited, x ∈ (imps.foldl
          (fun (acc : DfsState) imported =>
            match matchImported knowns module imported knowns with
            | none => acc
            | some matched =>
              if (path ++ [module]).contains matched then
                { acc with cycles := acc.cycles ++
                    [(path ++ [module]).drop (idxOfStr (path ++ [module]) matched)
                      ++ [matched]] }
              else if ¬ acc.visited.contains matched then
                dfs g knowns fuel matched (path ++ [module]) acc
              else acc) acc).visited)
        ∧ (∀ c ∈ (imps.foldl
          (fun (acc : DfsState) imported =>
            match matchImported knowns module imported knowns with
            | none => acc
            | some matched =>
              if (path ++ [module]).contains matched then
                { acc with cycles := acc.cycles ++
                    [(path ++ [module]).drop (idxOfStr (path ++ [module]) matched)
                      ++ [matched]] }
              else if ¬ acc.visited.contains matched then
                dfs g knowns fuel matched (path ++ [module]) acc
              else acc) acc).cycles, c.dropLast.Nodup) := by
      intro imps
      induction imps with
      | nil =>
        intro acc _ hc
        exact ⟨fun x hx => hx, hc⟩
      | cons imported rest ihr =>
        intro acc haccpath hacccyc
        simp only [List.foldl_cons]
        cases hm : matchImported knowns module imported knowns with
        | none =>
          exact ihr acc haccpath hacccyc
        | some matched =>
          dsimp only
          by_cases hinpath : (path ++ [module]).contains matched = true
          · simp only [hinpath, if_true]
            set acc1 : DfsState := { acc with cycles := acc.cycles ++
              [(path ++ [module]).drop (idxOfStr (path ++ [module]) matched)
                ++ [matched]] } with hacc1
            have hc1 : ∀ c ∈ acc1.cycles, c.dropLast.Nodup := by
              rw [hacc1]
              intro c hc
              rcases List.mem_append.mp hc with h | h
              · exact hacccyc c h
              · rw [List.mem_singleton] at h
                subst h
                rw [List.dropLast_concat]
                exact hnodup.sublist (List.drop_sublist _ _)
            have hp1 : ∀ x ∈ path ++ [module], x ∈ acc1.visited := by
              rw [hacc1]
              exact haccpath
            exact ihr acc1 hp1 hc1
          · rw [if_neg hinpath]
            by_cases hvis : acc.visited.contains matched = true
            · rw [if_neg (not_not_intro hvis)]
              exact ihr acc haccpath hacccyc
            · rw [if_pos hvis]
              have hnotin2 : matched ∉ path ++ [module] := by simpa using hinpath
              have hnodup2 : ((path ++ [module]) ++ [matched]).Nodup := by
                rw [List.nodup_append]
                exact ⟨hnodup, List.nodup_singleton _, by simpa using hnotin2⟩
              obtain ⟨rmono, rcyc⟩ := ih matched (path ++ [module]) acc hnodup2 haccpath hacccyc
              have hp2 : ∀ x ∈ path ++ [module],
                  x ∈ (dfs g knowns fuel matched (path ++ [module]) acc).visited :=
                fun x hx => rmono x (haccpath x hx)
              obtain ⟨r1, r2⟩ := ihr (dfs g knowns fuel matched (path ++ [module]) acc) hp2 rcyc
              exact ⟨fun x hx => r1 x (rmono x hx), r2⟩
    obtain ⟨kmono, kcyc⟩ := key ((List.lookup module g).getD []) st1 hpath' hcyc1
    exact ⟨fun x hx => kmono x (hmono1 x hx), kcyc⟩

theorem find_cycles_nodup (g : List (String × List String)) (order : List String) :
    ∀ c ∈ find_cycles g order, c.dropLast.Nodup := by
  unfold find_cycles
  suffices h : ∀ (ms : List String) (st : DfsState),
      (∀ c ∈ st.cycles, c.dropLast.Nodup) →
      ∀ c ∈ (ms.foldl
        (fun (st : DfsState) module =>
          if st.visited.contains module then st
          else dfs g order (order.length + 1) module [] st) st).cycles,
        c.dropLast.Nodup by
    exact h order ⟨[], []⟩ (by simp)
  intro ms
  induction ms with
  | nil =>
    intro st hst
    exact hst
  | cons m rest ihm =>
    intro st hst
    simp only [List.foldl_cons]
    by_cases hv : st.visited.contains m = true
    · rw [if_pos hv]
      exact ihm st hst
    · rw [if_neg hv]
      obtain ⟨-, hc⟩ := dfs_spec g order (order.length + 1) m [] st
        (by simp) (by simp) hst
      exact ihm _ hc

/-- C2: the cycle pass reported exactly the kept cycles of the
deduplication, each kept cycle has no repeated members before the
closing repetition, no two findings share the same member set (hence
the same sorted member set), and every finding is attributed to the
first module of its discovered path. -/
theorem c2_cycle_findings_dedup (g : List (String × List String)) (order : List String) :
    detect_circular_imports g order = (dedupCycles (find_cycles g order)).map mkCircSmell
    ∧ (∀ c ∈ dedupCycles (find_cycles g order), c.dropLast.Nodup)
    ∧ (dedupCycles (find_cycles g order)).Pairwise
        (fun c d => c.dropLast.toFinset ≠ d.dropLast.toFinset)
    ∧ ∀ c ∈ dedupCycles (find_cycles g order),
        (mkCircSmell c).ty = "CIRCULAR_IMPORT"
        ∧ (mkCircSmell c).file = pyReplace (c.headD "") "." "/" ++ ".py" := by
  obtain ⟨hpw, hsub⟩ := dedupCycles_spec (find_cycles g order)
  have hnodup : ∀ c ∈ dedupCycles (find_cycles g order), c.dropLast.Nodup :=
    fun c hc => find_cycles_nodup g order c (hsub c hc)
  refine ⟨rfl, hnodup, ?_, fun c _ => ⟨rfl, rfl⟩⟩
  refine List.Pairwise.imp_of_mem ?_ hpw
  intro c d hc hd hkey hfin
  apply hkey
  have hperm : List.Perm c.dropLast d.dropLast :=
    List.perm_of_nodup_nodup_toFinset_eq (hnodup c hc) (hnodup d hd) hfin
  have hsorted : pySortStrings c.dropLast = pySortStrings d.dropLast := by
    apply List.eq_of_perm_of_sorted
      (((List.perm_insertionSort strle c.dropLast).trans hperm).trans
        (List.perm_insertionSort strle d.dropLast).symm)
      (List.sorted_insertionSort strle c.dropLast)
      (List.sorted_insertionSort strle d.dropLast)
  unfold cycleKey
  rw [hsorted]

/-! ## C1: the duplicate-logic pass

The central fact is that `find_longest_match` on two identical
sequences returns the whole diagonal, whatever the autojunk purge
removed from `b2j`: the dynamic program only ever records on-diagonal
best matches (popular characters shorten the runs on every diagonal
equally, and ties never displace an earlier record), and the non-junk
extension loops—whose junk set is empty because `isjunk` is `None`—
then widen the diagonal match to the full length. -/

theorem mem_listPositions (l : List Char) (c : Char) :
    ∀ (i0 j : Nat), j ∈ listPositions l c i0 ↔
      i0 ≤ j ∧ j - i0 < l.length ∧ l.getD (j - i0) ' ' = c := by
  induction l with
  | nil => intro i0 j; simp [listPositions]
  | cons x xs ih =>
    intro i0 j
    unfold listPositions
    by_cases hx : x = c
    · rw [if_pos hx]
      simp only [List.mem_cons]
      constructor
      · rintro (rfl | hm)
        · exact ⟨le_refl _, by simp, by simp [hx]⟩
        · obtain ⟨h1, h2, h3⟩ := (ih (i0 + 1) j).mp hm
          refine ⟨by omega, by simp [List.length_cons]; omega, ?_⟩
          have : j - i0 = (j - (i0 + 1)) + 1 := by omega
          rw [this]
          simpa using h3
      · rintro ⟨h1, h2, h3⟩
        by_cases hj : j = i0
        · exact Or.inl hj
        · right
          apply (ih (i0 + 1) j).mpr
          refine ⟨by omega, by simp at h2 ⊢; omega, ?_⟩
          have : j - i0 = (j - (i0 + 1)) + 1 := by omega
          rw [this] at h3
          simpa using h3
    · rw [if_neg hx]
      rw [ih (i0 + 1) j]
      constructor
      · rintro ⟨h1, h2, h3⟩
        refine ⟨by omega, by simp at h2 ⊢; omega, ?_⟩
        have : j - i0 = (j - (i0 + 1)) + 1 := by omega
        rw [this]
        simpa using h3
      · rintro ⟨h1, h2, h3⟩
        have hji : j ≠ i0 := by
          rintro rfl
          simp at h3
          exact hx h3
        refine ⟨by omega, ?_, ?_⟩
        · simp at h2; omega
        · have : j - i0 = (j - (i0 + 1)) + 1 := by omega
          rw [this] at h3
          simpa using h3

theorem listPositions_sorted (l : List Char) (c : Char) :
    ∀ i0, (listPositions l c i0).Pairwise (· < ·) := by
  induction l with
  | nil => intro i0; simp [listPositions]
  | cons x xs ih =>
    intro i0
    unfold listPositions
    by_cases hx : x = c
    · rw [if_pos hx]
      refine List.Pairwise.cons ?_ (ih (i0 + 1))
      intro j hj
      have := (mem_listPositions xs c (i0 + 1) j).mp hj
      omega
    · rw [if_neg hx]
      exact ih (i0 + 1)

theorem listPositions_eq_nil (l : List Char) (c : Char) (hc : c ∉ l) :
    listPositions l c 0 = [] := by
  by_contra h
  match hL : listPositions l c 0 with
  | [] => exact h hL
  | j :: _ =>
    have hm : j ∈ listPositions l c 0 := by rw [hL]; exact List.mem_cons_self _ _
    obtain ⟨-, h2, h3⟩ := (mem_listPositions l c 0 j).mp hm
    simp only [Nat.sub_zero] at h2 h3
    apply hc
    rw [← h3, List.getD_eq_getElem l ' ' h2]
    exact List.getElem_mem h2

/-- Diagonal chain length of the dynamic program at each index: the
length of the longest suffix ending there whose positions survive in
`b2j`. -/
def vstarF (a : List Char) (b2jF : Char → List Nat) : Nat → Nat
  | 0 => if 0 ∈ b2jF (a.getD 0 ' ') then 1 else 0
  | j + 1 => if (j + 1) ∈ b2jF (a.getD (j + 1) ' ') then vstarF a b2jF j + 1 else 0

theorem vstarF_le (a : List Char) (b2jF : Char → List Nat) :
    ∀ j, vstarF a b2jF j ≤ j + 1 := by
  intro j
  induction j with
  | zero => unfold vstarF; split_ifs <;> omega
  | succ j ih => unfold vstarF; split_ifs <;> omega

theorem vstarF_present (a : List Char) (b2jF : Char → List Nat) (j : Nat)
    (h : j ∈ b2jF (a.getD j ' ')) :
    vstarF a b2jF j = (if j = 0 then 0 else vstarF a b2jF (j - 1)) + 1 := by
  cases j with
  | zero =>
    unfold vstarF
    rw [if_pos h]
    simp
  | succ j =>
    show (if (j + 1) ∈ b2jF (a.getD (j + 1) ' ') then vstarF a b2jF j + 1 else 0) = _
    rw [if_pos h]
    norm_num

theorem vstarF_absent (a : List Char) (b2jF : Char → List Nat) (j : Nat)
    (h : j ∉ b2jF (a.getD j ' ')) :
    vstarF a b2jF j = 0 := by
  cases j with
  | zero =>
    unfold vstarF
    rw [if_neg h]
  | succ j =>
    show (if (j + 1) ∈ b2jF (a.getD (j + 1) ' ') then vstarF a b2jF j + 1 else 0) = _
    rw [if_neg h]

theorem flmInner_diag_spec (a : List Char) (n : Nat) (v : Nat → Nat) (i : Nat)
    (old : Nat → Nat)
    (hA : ∀ j, old j ≤ v j)
    (hB : ∀ j, old j ≤ (if i = 0 then 0 else v (i - 1)))
    (hEq : 0 < i → old (i - 1) = v (i - 1))
    (hvi : v i = (if i = 0 then 0 else v (i - 1)) + 1)
    (hvb : ∀ j, v j ≤ j + 1) :
    ∀ (L : List Nat) (acc : Nat → Nat) (best : BestMatch),
      (∀ j ∈ L, j < n ∧ v j = (if j = 0 then 0 else v (j - 1)) + 1) →
      L.Pairwise (· < ·) →
      best.besti = best.bestj →
      best.besti + best.size ≤ i + 1 →
      (∀ r, r < i → v r ≤ best.size) →
      (i ∈ L ∨ v i ≤ best.size) →
      (∀ j, acc j ≤ v j ∧ acc j ≤ v i) →
      ((flmInner old i 0 n L acc best).2.besti = (flmInner old i 0 n L acc best).2.bestj
      ∧ (flmInner old i 0 n L acc best).2.besti
          + (flmInner old i 0 n L acc best).2.size ≤ i + 1
      ∧ best.size ≤ (flmInner old i 0 n L acc best).2.size
      ∧ (∀ r, r < i → v r ≤ (flmInner old i 0 n L acc best).2.size)
      ∧ v i ≤ (flmInner old i 0 n L acc best).2.size
      ∧ (∀ j, (flmInner old i 0 n L acc best).1 j ≤ v j
          ∧ (flmInner old i 0 n L acc best).1 j ≤ v i)
      ∧ (i ∈ L → (flmInner old i 0 n L acc best).1 i = v i)
      ∧ (∀ j, j ∉ L → (flmInner old i 0 n L acc best).1 j = acc j)) := by
  have hkexact : (if i = 0 then 0 else old (i - 1)) + 1 = v i := by
    rw [hvi]
    by_cases hj0 : i = 0
    · simp [hj0]
    · simp only [if_neg hj0]
      exact congrArg (· + 1) (hEq (Nat.pos_of_ne_zero hj0))
  intro L
  induction L with
  | nil =>
    intro acc best _ _ hC hF hD hdiag hacc
    rcases hdiag with hd | hd
    · exact absurd hd (List.not_mem_nil i)
    · exact ⟨hC, hF, le_refl _, hD, hd, hacc,
        fun h => absurd h (List.not_mem_nil i), fun _ _ => rfl⟩
  | cons j rest ihL =>
    intro acc best hmem hsort hC hF hD hdiag hacc
    obtain ⟨hjn, hjv⟩ := hmem j (List.mem_cons_self _ _)
    have hrestmem : ∀ x ∈ rest, x < n ∧ v x = (if x = 0 then 0 else v (x - 1)) + 1 :=
      fun x hx => hmem x (List.mem_cons_of_mem _ hx)
    have hrestsort : rest.Pairwise (· < ·) := hsort.of_cons
    have hjlt : ∀ x ∈ rest, j < x := fun x hx => List.rel_of_pairwise_cons hsort hx
    have hjnotin : j ∉ rest := fun h => absurd (hjlt j h) (lt_irrefl j)
    simp only [flmInner]
    rw [if_neg (Nat.not_lt_zero j), if_neg (not_le.mpr hjn)]
    have hkA : (if j = 0 then 0 else old (j - 1)) + 1 ≤ v j := by
      rw [hjv]
      by_cases hj0 : j = 0
      · simp [hj0]
      · simp only [if_neg hj0]
        exact Nat.succ_le_succ (hA (j - 1))
    have hkB : (if j = 0 then 0 else old (j - 1)) + 1 ≤ v i := by
      rw [hvi]
      by_cases hj0 : j = 0
      · simp [hj0]
      · simp only [if_neg hj0]
        exact Nat.succ_le_succ (hB (j - 1))
    have haccnew : ∀ j',
        (fun j' => if j' = j then (if j = 0 then 0 else old (j - 1)) + 1 else acc j') j' ≤ v j'
        ∧ (fun j' => if j' = j then (if j = 0 then 0 else old (j - 1)) + 1 else acc j') j'
            ≤ v i := by
      intro j'
      dsimp only
      by_cases hj' : j' = j
      · subst hj'
        rw [if_pos rfl]
        exact ⟨hkA, hkB⟩
      · rw [if_neg hj']
        exact hacc j'
    by_cases hupd : best.size < (if j = 0 then 0 else old (j - 1)) + 1
    · rw [if_pos hupd]
      have hji : i = j := by
        rcases Nat.lt_trichotomy j i with hlt | heq | hgt
        · exact absurd (lt_of_le_of_lt (le_trans hkA (hD j hlt)) hupd) (lt_irrefl _)
        · exact heq.symm
        · rcases hdiag with hd | hd
          · rcases List.mem_cons.mp hd with h | h
            · omega
            · exact absurd (hjlt i h) (by omega)
          · exact absurd (lt_of_le_of_lt (le_trans hkB hd) hupd) (lt_irrefl _)
      subst hji
      have hknb : (if i = 0 then 0 else old (i - 1)) + 1 ≤ i + 1 := hkexact ▸ hvb i
      have ihres := ihL
        (fun j' => if j' = i then (if i = 0 then 0 else old (i - 1)) + 1 else acc j')
        ⟨i + 1 - ((if i = 0 then 0 else old (i - 1)) + 1),
         i + 1 - ((if i = 0 then 0 else old (i - 1)) + 1),
         (if i = 0 then 0 else old (i - 1)) + 1⟩
        hrestmem hrestsort rfl (by dsimp only; omega)
        (fun r hr => by
          dsimp only
          exact le_trans (hD r hr) (le_of_lt hupd))
        (Or.inr (by dsimp only; omega))
        haccnew
      obtain ⟨r1, r2, r3, r4, r5, r6, r7, r8⟩ := ihres
      refine ⟨r1, r2, le_trans (le_of_lt hupd) r3, r4, r5, r6, ?_, ?_⟩
      · intro _
        rw [r8 i hjnotin]
        simp only [if_pos rfl]
        exact hkexact
      · intro j' hj'
        have hj'j : j' ≠ i := fun h => hj' (h ▸ List.mem_cons_self i rest)
        have hj'rest : j' ∉ rest := fun h => hj' (List.mem_cons_of_mem _ h)
        rw [r8 j' hj'rest]
        simp only [if_neg hj'j]
    · rw [if_neg hupd]
      have hdiag' : i ∈ rest ∨ v i ≤ best.size := by
        rcases hdiag with hd | hd
        · rcases List.mem_cons.mp hd with h | h
          · right
            subst h
            omega
          · exact Or.inl h
        · exact Or.inr hd
      have ihres := ihL
        (fun j' => if j' = j then (if j = 0 then 0 else old (j - 1)) + 1 else acc j')
        best hrestmem hrestsort hC hF hD hdiag' haccnew
      obtain ⟨r1, r2, r3, r4, r5, r6, r7, r8⟩ := ihres
      refine ⟨r1, r2, r3, r4, r5, r6, ?_, ?_⟩
      · intro hiL
        rcases List.mem_cons.mp hiL with h | h
        · subst h
          rw [r8 i hjnotin]
          simp only [if_pos rfl]
          exact hkexact
        · exact r7 h
      · intro j' hj'
        have hj'j : j' ≠ j := fun h => hj' (h ▸ List.mem_cons_self j rest)
        have hj'rest : j' ∉ rest := fun h => hj' (List.mem_cons_of_mem _ h)
        rw [r8 j' hj'rest]
        simp only [if_neg hj'j]

theorem flmRows_diag_spec (a : List Char) :
    ∀ (fuel : Nat), ∀ (i : Nat) (old : Nat → Nat) (best : BestMatch),
      i + fuel = a.length →
      (∀ j, old j ≤ vstarF a (b2jFun a) j) →
      (∀ j, old j ≤ (if i = 0 then 0 else vstarF a (b2jFun a) (i - 1))) →
      (0 < i → old (i - 1) = vstarF a (b2jFun a) (i - 1)) →
      best.besti = best.bestj →
      best.besti + best.size ≤ i →
      (∀ r, r < i → vstarF a (b2jFun a) r ≤ best.size) →
      ((flmRows a (b2jFun a) 0 a.length fuel i old best).besti
        = (flmRows a (b2jFun a) 0 a.length fuel i old best).bestj
      ∧ (flmRows a (b2jFun a) 0 a.length fuel i old best).besti
          + (flmRows a (b2jFun a) 0 a.length fuel i old best).size ≤ a.length) := by
  intro fuel
  induction fuel with
  | zero =>
    intro i old best hlen _ _ _ hC hF _
    exact ⟨hC, by simpa [flmRows] using le_trans hF (by omega)⟩
  | succ fuel ih =>
    intro i old best hlen h1 h2 h3 hC hF h6
    have hin : i < a.length := by omega
    simp only [flmRows]
    by_cases hpop : isPopular a (a.getD i ' ')
    · have hL : b2jFun a (a.getD i ' ') = [] := by
        unfold b2jFun
        rw [if_pos hpop]
      rw [hL]
      have hvi0 : vstarF a (b2jFun a) i = 0 :=
        vstarF_absent a (b2jFun a) i (by rw [hL]; exact List.not_mem_nil i)
      simp only [flmInner]
      exact ih (i + 1) (fun _ => 0) best (by omega)
        (fun j => Nat.zero_le _) (fun j => Nat.zero_le _)
        (fun _ => by simpa using hvi0.symm) hC (by omega)
        (fun r hr => by
          rcases Nat.lt_succ_iff_lt_or_eq.mp hr with h | h
          · exact h6 r h
          · rw [h, hvi0]; exact Nat.zero_le _)
    · have hLP : b2jFun a (a.getD i ' ') = listPositions a (a.getD i ' ') 0 := by
        unfold b2jFun
        rw [if_neg hpop]
      have hiL : i ∈ b2jFun a (a.getD i ' ') := by
        rw [hLP]
        rw [mem_listPositions]
        exact ⟨Nat.zero_le i, by simpa using hin, by simp⟩
      have hvi : vstarF a (b2jFun a) i
          = (if i = 0 then 0 else vstarF a (b2jFun a) (i - 1)) + 1 :=
        vstarF_present a (b2jFun a) i hiL
      have hmem : ∀ j ∈ b2jFun a (a.getD i ' '), j < a.length
          ∧ vstarF a (b2jFun a) j
              = (if j = 0 then 0 else vstarF a (b2jFun a) (j - 1)) + 1 := by
        intro j hj
        have hj0 := hj
        rw [hLP, mem_listPositions] at hj
        obtain ⟨-, hjl, hjc⟩ := hj
        have hjn : j < a.length := by simpa using hjl
        have hjc' : a.getD j ' ' = a.getD i ' ' := by simpa using hjc
        refine ⟨hjn, vstarF_present a (b2jFun a) j ?_⟩
        rw [hjc']
        exact hj0
      have hsort : (b2jFun a (a.getD i ' ')).Pairwise (· < ·) := by
        rw [hLP]
        exact listPositions_sorted a (a.getD i ' ') 0
      have hspec := flmInner_diag_spec a a.length (vstarF a (b2jFun a)) i old
        h1 h2 h3 hvi (vstarF_le a (b2jFun a))
        (b2jFun a (a.getD i ' ')) (fun _ => 0) best
        hmem hsort hC (by omega) h6 (Or.inl hiL)
        (fun j => ⟨Nat.zero_le _, Nat.zero_le _⟩)
      obtain ⟨r1, r2, _, r4, r5, r6, r7, _⟩ := hspec
      exact ih (i + 1)
        (flmInner old i 0 a.length (b2jFun a (a.getD i ' ')) (fun _ => 0) best).1
        (flmInner old i 0 a.length (b2jFun a (a.getD i ' ')) (fun _ => 0) best).2
        (by omega)
        (fun j => (r6 j).1)
        (fun j => by simpa using (r6 j).2)
        (fun _ => by simpa using r7 hiL)
        r1 r2
        (fun r hr => by
          rcases Nat.lt_succ_iff_lt_or_eq.mp hr with h | h
          · exact r4 r h
          · rw [h]; exact r5)

theorem extendLeft_diag (a : List Char) :
    ∀ (d s : Nat),
      extendLeft a a (fun _ => false) false 0 0 d ⟨d, d, s⟩ = ⟨0, 0, s + d⟩ := by
  intro d
  induction d with
  | zero => intro s; rfl
  | succ d ih =>
    intro s
    simp only [extendLeft]
    split
    · show extendLeft a a (fun _ => false) false 0 0 d ⟨d, d, s + 1⟩ = ⟨0, 0, s + (d + 1)⟩
      rw [ih (s + 1)]
      exact congrArg (BestMatch.mk 0 0) (by omega)
    · rename_i hcond
      exact absurd ⟨Nat.succ_pos d, Nat.succ_pos d, by simp, by simp⟩ hcond

theorem extendRight_diag (a : List Char) (n : Nat) :
    ∀ (fuel s : Nat), fuel = n - s → s ≤ n →
      extendRight a a (fun _ => false) false n n fuel ⟨0, 0, s⟩ = ⟨0, 0, n⟩ := by
  intro fuel
  induction fuel with
  | zero =>
    intro s h1 h2
    have hsn : s = n := by omega
    subst hsn
    rfl
  | succ fuel ih =>
    intro s h1 h2
    have hs : s < n := by omega
    simp only [extendRight]
    split
    · exact ih (s + 1) (by omega) (by omega)
    · rename_i hcond
      exact absurd ⟨by omega, by omega, by simp, by simp⟩ hcond

theorem find_longest_match_self (a : List Char) :
    find_longest_match a a (b2jFun a) (fun _ => false) 0 a.length 0 a.length
      = ⟨0, 0, a.length⟩ := by
  have hspec := flmRows_diag_spec a (a.length - 0) 0 (fun _ => 0) ⟨0, 0, 0⟩
    (by omega) (fun j => Nat.zero_le _) (fun j => Nat.zero_le _)
    (fun h => absurd h (lt_irrefl 0)) rfl (le_refl 0)
    (fun r hr => absurd hr (Nat.not_lt_zero r))
  simp only [find_longest_match]
  revert hspec
  generalize flmRows a (b2jFun a) 0 a.length (a.length - 0) 0 (fun _ => 0) ⟨0, 0, 0⟩ = B
  intro hspec
  obtain ⟨hC, hF⟩ := hspec
  obtain ⟨bi, bj, bs⟩ := B
  simp only at hC hF
  subst hC
  dsimp only
  rw [extendLeft_diag a bi bs]
  dsimp only
  rw [Nat.zero_add]
  rw [extendRight_diag a a.length (a.length - (bs + bi)) (bs + bi) rfl (by omega)]
  dsimp only
  rw [show (extendLeft a a (fun _ => false) true 0 0 0 ⟨0, 0, a.length⟩
      : BestMatch) = ⟨0, 0, a.length⟩ from rfl]
  dsimp only
  rw [Nat.zero_add, Nat.sub_self]
  rfl

theorem find_longest_match_eq_of (a b : List Char) (b2jF : Char → List Nat)
    (junkF : Char → Bool) (alo ahi blo bhi : Nat) (B1 E2 E3 E4 E5 : BestMatch)
    (h1 : flmRows a b2jF blo bhi (ahi - alo) alo (fun _ => 0) ⟨alo, blo, 0⟩ = B1)
    (h2 : extendLeft a b junkF false alo blo B1.besti B1 = E2)
    (h3 : extendRight a b junkF false ahi bhi (ahi - (E2.besti + E2.size)) E2 = E3)
    (h4 : extendLeft a b junkF true alo blo E3.besti E3 = E4)
    (h5 : extendRight a b junkF true ahi bhi (ahi - (E4.besti + E4.size)) E4 = E5) :
    find_longest_match a b b2jF junkF alo ahi blo bhi = E5 := by
  simp only [find_longest_match]
  rw [h1, h2, h3, h4, h5]

theorem flmRows_nil (a : List Char) (b2jF : Char → List Nat) (blo bhi n : Nat)
    (h : ∀ i, i < n → b2jF (a.getD i ' ') = []) :
    ∀ (fuel i : Nat) (acc : Nat → Nat) (best : BestMatch), i + fuel = n →
      flmRows a b2jF blo bhi fuel i acc best = best := by
  intro fuel
  induction fuel with
  | zero => intro i acc best _; rfl
  | succ fuel ih =>
    intro i acc best hlen
    simp only [flmRows]
    rw [h i (by omega)]
    simp only [flmInner]
    exact ih (i + 1) (fun _ => 0) best (by omega)

theorem extendRight_stuck (a b : List Char) (junkF : Char → Bool) (jv : Bool)
    (ahi bhi fuel : Nat)
    (h : ¬(0 < ahi ∧ 0 < bhi ∧ junkF (b.getD 0 ' ') = jv
        ∧ a.getD 0 ' ' = b.getD 0 ' ')) :
    extendRight a b junkF jv ahi bhi fuel ⟨0, 0, 0⟩ = ⟨0, 0, 0⟩ := by
  cases fuel with
  | zero => rfl
  | succ fuel =>
    simp only [extendRight]
    split
    · rename_i hcond
      exact absurd hcond h
    · rfl

theorem find_longest_match_disjoint (a b : List Char)
    (hd : ∀ c ∈ a, c ∉ b) :
    find_longest_match a b (b2jFun b) (fun _ => false) 0 a.length 0 b.length
      = ⟨0, 0, 0⟩ := by
  have hnil : ∀ i, i < a.length → b2jFun b (a.getD i ' ') = [] := by
    intro i hi
    have hmem : a.getD i ' ' ∈ a := by
      rw [List.getD_eq_getElem a ' ' hi]
      exact List.getElem_mem hi
    have hnb : a.getD i ' ' ∉ b := hd _ hmem
    unfold b2jFun
    split
    · rfl
    · exact listPositions_eq_nil b _ hnb
  have hstuck : ¬(0 < a.length ∧ 0 < b.length
      ∧ (fun _ => false) (b.getD 0 ' ') = false
      ∧ a.getD 0 ' ' = b.getD 0 ' ') := by
    rintro ⟨h1, h2, -, h4⟩
    have hma : a.getD 0 ' ' ∈ a := by
      rw [List.getD_eq_getElem a ' ' h1]
      exact List.getElem_mem h1
    have hmb : b.getD 0 ' ' ∈ b := by
      rw [List.getD_eq_getElem b ' ' h2]
      exact List.getElem_mem h2
    exact hd _ hma (h4 ▸ hmb)
  have hstuckT : ¬(0 < a.length ∧ 0 < b.length
      ∧ (fun _ => false) (b.getD 0 ' ') = true
      ∧ a.getD 0 ' ' = b.getD 0 ' ') := by
    rintro ⟨-, -, h3, -⟩
    simp at h3
  exact find_longest_match_eq_of a b (b2jFun b) (fun _ => false) 0 a.length 0 b.length
    ⟨0, 0, 0⟩ ⟨0, 0, 0⟩ ⟨0, 0, 0⟩ ⟨0, 0, 0⟩ ⟨0, 0, 0⟩
    (flmRows_nil a (b2jFun b) 0 b.length a.length hnil (a.length - 0) 0 (fun _ => 0)
      ⟨0, 0, 0⟩ (by omega))
    rfl
    (extendRight_stuck a b (fun _ => false) false a.length b.length _ hstuck)
    rfl
    (extendRight_stuck a b (fun _ => false) true a.length b.length _ hstuckT)

theorem seqMatches_self (a : List Char) : seqMatches a a = a.length := by
  unfold seqMatches
  rw [show a.length + a.length + 1 = (a.length + a.length) + 1 from rfl]
  simp only [matchSum]
  rw [find_longest_match_self a]
  dsimp only
  by_cases h : a.length = 0
  · rw [if_pos h]
    omega
  · rw [if_neg h]
    rw [if_neg (by omega : ¬((0:Nat) < 0 ∧ (0:Nat) < 0))]
    rw [if_neg (by omega : ¬(0 + a.length < a.length ∧ 0 + a.length < a.length))]
    omega

theorem seqMatches_disjoint (a b : List Char) (hd : ∀ c ∈ a, c ∉ b) :
    seqMatches a b = 0 := by
  unfold seqMatches
  rw [show a.length + b.length + 1 = (a.length + b.length) + 1 from rfl]
  simp only [matchSum]
  rw [find_longest_match_disjoint a b hd]
  simp

theorem similarity_self (a : String) : similarity a a = 1 := by
  unfold similarity
  by_cases h : a.data.length + a.data.length = 0
  · rw [if_pos h]
  · rw [if_neg h]
    rw [seqMatches_self]
    have hl : (0:ℚ) < (a.data.length : ℚ) + (a.data.length : ℚ) := by
      have : 0 < a.data.length + a.data.length := Nat.pos_of_ne_zero h
      exact_mod_cast this
    rw [div_eq_one_iff_eq (by push_cast; exact ne_of_gt hl)]
    push_cast
    ring

theorem similarity_disjoint (a b : String)
    (hne : a.data.length + b.data.length ≠ 0)
    (hd : ∀ c ∈ a.data, c ∉ b.data) :
    similarity a b = 0 := by
  unfold similarity
  rw [if_neg hne]
  rw [seqMatches_disjoint a.data b.data hd]
  norm_num

theorem dupGate_self (a : String) : dupGate a a = true := by
  unfold dupGate
  rw [seqMatches_self]
  by_cases h : a.data.length + a.data.length = 0
  · rw [if_pos h]
  · rw [if_neg h]
    rw [decide_eq_true_eq]
    omega

theorem dupGate_disjoint (a b : String)
    (hne : a.data.length + b.data.length ≠ 0)
    (hd : ∀ c ∈ a.data, c ∉ b.data) :
    dupGate a b = false := by
  unfold dupGate
  rw [seqMatches_disjoint a.data b.data hd]
  rw [if_neg hne]
  rw [decide_eq_false_iff_not]
  omega

/-- Ordered index pairs `(p, q)` with `p < q < n`, in the traversal
order of the duplicate pass (outer index first). -/
def indexPairs : Nat → List (Nat × Nat)
  | 0 => []
  | n + 1 =>
    (List.range n).map (fun j => (0, j + 1))
      ++ (indexPairs n).map (fun pq => (pq.1 + 1, pq.2 + 1))

/-- Ordered element pairs of a list, each earlier element paired with
each later one, in traversal order. -/
def listPairs : List FuncBody → List (FuncBody × FuncBody)
  | [] => []
  | A :: rest => rest.map (fun B => (A, B)) ++ listPairs rest

theorem dupScanInner_eq (A : FuncBody) (l : List FuncBody) :
    dupScanInner A l = l.filterMap (fun B =>
      if dupGate A.src B.src then some (mkDupSmell A B) else none) := by
  induction l with
  | nil => rfl
  | cons B rest ih =>
    simp only [dupScanInner, List.filterMap_cons, ih]
    by_cases h : dupGate A.src B.src
    · rw [if_pos h, if_pos h]
      rfl
    · rw [if_neg h, if_neg h]
      rfl

theorem dupScan_eq (l : List FuncBody) :
    dupScan l = (listPairs l).filterMap (fun AB =>
      if dupGate AB.1.src AB.2.src then some (mkDupSmell AB.1 AB.2) else none) := by
  induction l with
  | nil => rfl
  | cons A rest ih =>
    simp only [dupScan, listPairs, List.filterMap_append, ih, dupScanInner_eq,
      List.filterMap_map]
    rfl

theorem map_getD_range {α β : Type} [Inhabited α] (l : List α) (f : α → β) :
    (List.range l.length).map (fun j => f (l.getD j default)) = l.map f := by
  apply List.ext_getElem
  · simp
  · intro j h1 h2
    simp only [List.getElem_map, List.getElem_range]
    rw [List.getD_eq_getElem l default (by simpa using h2)]

theorem listPairs_eq_indexPairs (l : List FuncBody) :
    listPairs l = (indexPairs l.length).map (fun pq =>
      (l.getD pq.1 default, l.getD pq.2 default)) := by
  induction l with
  | nil => rfl
  | cons A rest ih =>
    simp only [listPairs, List.length_cons, indexPairs, List.map_append,
      List.map_map]
    congr 1
    rw [← map_getD_range rest (fun B => (A, B))]
    apply List.map_congr_left
    intro j hj
    simp only [Function.comp_apply, List.getD_cons_zero, List.getD_cons_succ]

theorem indexPairs_mem (n : Nat) :
    ∀ p q, (p, q) ∈ indexPairs n ↔ p < q ∧ q < n := by
  induction n with
  | zero => intro p q; simp [indexPairs]
  | succ n ih =>
    intro p q
    simp only [indexPairs, List.mem_append, List.mem_map, List.mem_range,
      Prod.mk.injEq]
    constructor
    · rintro (⟨j, hj, h0, hq⟩ | ⟨⟨p', q'⟩, hpq, hp, hq⟩)
      · omega
      · have := (ih p' q').mp hpq
        omega
    · rintro ⟨hpq, hqn⟩
      cases p with
      | zero => exact Or.inl ⟨q - 1, by omega, rfl, by omega⟩
      | succ p =>
        refine Or.inr ⟨(p, q - 1), (ih p (q - 1)).mpr (by omega), rfl, by omega⟩

theorem indexPairs_nodup (n : Nat) : (indexPairs n).Nodup := by
  induction n with
  | zero => exact List.nodup_nil
  | succ n ih =>
    apply List.Nodup.append
    · exact (List.nodup_range n).map (fun a b h => by
        simpa using congrArg Prod.snd h)
    · exact ih.map (fun a b h => by
        have h1 := congrArg Prod.fst h
        have h2 := congrArg Prod.snd h
        simp only at h1 h2
        exact Prod.ext (by omega) (by omega))
    · intro x hx hy
      simp only [List.mem_map, List.mem_range] at hx hy
      obtain ⟨j, -, hj⟩ := hx
      obtain ⟨pq, -, hpq⟩ := hy
      rw [← hj] at hpq
      have := congrArg Prod.fst hpq
      simp at this

theorem dupGate_iff (a b : String) :
    dupGate a b = true ↔ (4:ℚ)/5 < similarity a b := by
  unfold dupGate similarity
  by_cases h : a.data.length + b.data.length = 0
  · rw [if_pos h, if_pos h]
    norm_num
  · rw [if_neg h, if_neg h, decide_eq_true_eq]
    have hpos : 0 < a.data.length + b.data.length := Nat.pos_of_ne_zero h
    have hl : (0:ℚ) < (a.data.length:ℚ) + (b.data.length:ℚ) := by
      have h1 : ((a.data.length + b.data.length : Nat) : ℚ)
          = (a.data.length:ℚ) + (b.data.length:ℚ) := by push_cast; ring
      rw [← h1]
      exact Nat.cast_pos.mpr hpos
    rw [div_lt_div_iff₀ (by norm_num : (0:ℚ) < 5) hl]
    rw [show (4:ℚ) * ((a.data.length:ℚ) + (b.data.length:ℚ))
        = ((4 * (a.data.length + b.data.length) : Nat) : ℚ) from by push_cast; ring]
    rw [show (2:ℚ) * (seqMatches a.data b.data : ℚ) * 5
        = ((10 * seqMatches a.data b.data : Nat) : ℚ) from by push_cast; ring]
    exact Nat.cast_lt.symm

/-- C1 (amended): for a corpus of at least two captured bodies, the
duplicate pass emits, following the ordered index pairs `p < q` (each
unordered pair exactly once, since the pair list is duplicate-free),
one DUPLICATE_LOGIC finding attributed to the earlier body exactly
when the similarity ratio of the normalized texts exceeds 0.8;
identical normalized texts have ratio 1, and normalized texts that are
not both empty and share no characters have ratio 0 and fail the gate.
(The original claim is corrected: two comment-only bodies normalize to
empty texts, share no tokens, and still get ratio 1 and a finding.) -/
theorem c1_duplicate_pair_rule (bodies : List FuncBody)
    (h2 : 2 ≤ bodies.length) :
    (detect_duplicate_logic bodies
      = (indexPairs bodies.length).filterMap (fun pq =>
          if (4:ℚ)/5 < similarity ((bodies.map normalizeEntry).getD pq.1 default).src
              ((bodies.map normalizeEntry).getD pq.2 default).src
          then some (mkDupSmell ((bodies.map normalizeEntry).getD pq.1 default)
              ((bodies.map normalizeEntry).getD pq.2 default))
          else none))
    ∧ (∀ p q, (p, q) ∈ indexPairs bodies.length ↔ p < q ∧ q < bodies.length)
    ∧ (indexPairs bodies.length).Nodup
    ∧ (∀ s : String, similarity s s = 1)
    ∧ (∀ x y : String, x.data.length + y.data.length ≠ 0 →
        (∀ c ∈ x.data, c ∉ y.data) →
          similarity x y = 0 ∧ dupGate x y = false) := by
  refine ⟨?_, indexPairs_mem bodies.length, indexPairs_nodup bodies.length,
    similarity_self,
    fun x y hne hd => ⟨similarity_disjoint x y hne hd, dupGate_disjoint x y hne hd⟩⟩
  unfold detect_duplicate_logic
  rw [if_neg (by omega : ¬ bodies.length < 2)]
  rw [dupScan_eq, listPairs_eq_indexPairs, List.length_map]
  rw [List.filterMap_map]
  refine congrFun (congrArg List.filterMap (funext fun pq => ?_)) _
  dsimp only [Function.comp]
  by_cases hg : dupGate ((bodies.map normalizeEntry).getD pq.1 default).src
      ((bodies.map normalizeEntry).getD pq.2 default).src = true
  · rw [if_pos hg, if_pos ((dupGate_iff _ _).mp hg)]
  · rw [if_neg hg, if_neg (fun hc => hg ((dupGate_iff _ _).mpr hc))]

/-- C1 counterexample: two comment-only bodies normalize to empty
texts; they share no tokens, yet the computed ratio is 1 (not 0) and
the duplicate pass does emit a DUPLICATE_LOGIC finding. -/
theorem c1_counterexample :
    normalizeFB "# only a comment\n" = ""
    ∧ normalizeFB "// another comment\n" = ""
    ∧ similarity "" "" = 1
    ∧ detect_duplicate_logic
        [⟨"a.py", "f", 1, "# only a comment\n"⟩,
         ⟨"b.py", "g", 9, "// another comment\n"⟩]
      = [mkDupSmell ⟨"a.py", "f", 1, ""⟩ ⟨"b.py", "g", 9, ""⟩] := by
  refine ⟨rfl, rfl, ?_, rfl⟩
  unfold similarity
  norm_num

def c1Bodies : List FuncBody :=
  [⟨"a.py", "f", 1, "x = 1\n"⟩, ⟨"b.py", "g", 2, "y = 2\n"⟩]

/-- C1 witness: the amended duplicate rule instantiated on a concrete
two-body corpus. -/
theorem c1_witness :
    2 ≤ c1Bodies.length
    ∧ ((detect_duplicate_logic c1Bodies
      = (indexPairs c1Bodies.length).filterMap (fun pq =>
          if (4:ℚ)/5 < similarity ((c1Bodies.map normalizeEntry).getD pq.1 default).src
              ((c1Bodies.map normalizeEntry).getD pq.2 default).src
          then some (mkDupSmell ((c1Bodies.map normalizeEntry).getD pq.1 default)
              ((c1Bodies.map normalizeEntry).getD pq.2 default))
          else none))
    ∧ (∀ p q, (p, q) ∈ indexPairs c1Bodies.length ↔ p < q ∧ q < c1Bodies.length)
    ∧ (indexPairs c1Bodies.length).Nodup
    ∧ (∀ s : String, similarity s s = 1)
    ∧ (∀ x y : String, x.data.length + y.data.length ≠ 0 →
        (∀ c ∈ x.data, c ∉ y.data) →
          similarity x y = 0 ∧ dupGate x y = false)) :=
  ⟨by decide, c1_duplicate_pair_rule c1Bodies (by decide)⟩

/-- A severity the formatter groups under one of its three sections. -/
def sevOK (s : Smell) : Prop :=
  s.severity = "high" ∨ s.severity = "medium" ∨ s.severity = "low"

/-- Every finding of the list has a known severity. -/
def smellsOK (l : List Smell) : Prop := ∀ s ∈ l, sevOK s

theorem smellsOK_append {l1 l2 : List Smell} (h1 : smellsOK l1) (h2 : smellsOK l2) :
    smellsOK (l1 ++ l2) := by
  intro s hs
  rcases List.mem_append.mp hs with h | h
  · exact h1 s h
  · exact h2 s h

theorem smellsOK_nil : smellsOK [] := fun s hs => absurd hs (List.not_mem_nil s)

theorem classVisit_sev (cfg : MapperConfig) (n : Node) (ctx : FileContext)
    (h : smellsOK ctx.smells) : smellsOK (classVisit cfg n ctx).smells := by
  unfold classVisit
  split
  · exact h
  split
  · exact h
  rename_i nm
  split
  · exact h
  dsimp only
  by_cases hg : cfg.god_class_methods < (n.children.map (fun child =>
      if ["block", "class_body", "declaration_list", "field_declaration_list"].contains child.ty then
        (child.children.filter (fun m =>
          ["function_definition", "method_definition", "method_declaration",
           "function_item", "function_declaration"].contains m.ty)).length
      else 0)).sum <;>
    simp only [hg, if_true, if_false, ite_true, ite_false] <;>
    split <;>
    intro s hs <;>
    try dsimp only at hs
  all_goals try simp only [List.mem_append, List.mem_singleton] at hs
  all_goals try casesm* _ ∨ _
  all_goals first
    | exact h s (by assumption)
    | (subst_vars; exact Or.inl rfl)
    | (subst_vars; exact Or.inr (Or.inl rfl))
    | (subst_vars; exact Or.inr (Or.inr rfl))

theorem functionVisit_sev (cfg : MapperConfig) (n : Node) (ctx : FileContext)
    (h : smellsOK ctx.smells) : smellsOK (functionVisit cfg n ctx).smells := by
  unfold functionVisit
  split
  · exact h
  split
  · exact h
  rename_i nm
  split
  · exact h
  dsimp only
  by_cases h2 : cfg.long_func_lines < n.endRow - n.startRow + 1 <;>
  by_cases h3 : cfg.deep_nesting_levels < count_nesting_depth n 0 <;>
  by_cases h4 : cfg.many_params < (get_function_params n).length <;>
    simp only [h2, h3, h4, if_true, if_false, ite_true, ite_false] <;>
    split <;>
    try split
  all_goals intro s hs
  all_goals try dsimp only at hs
  all_goals try simp only [List.mem_append, List.mem_singleton] at hs
  all_goals try casesm* _ ∨ _
  all_goals first
    | exact h s (by assumption)
    | (subst_vars; exact Or.inl rfl)
    | (subst_vars; exact Or.inr (Or.inl rfl))
    | (subst_vars; exact Or.inr (Or.inr rfl))

theorem importVisit_sev (cfg : MapperConfig) (n : Node) (ctx : FileContext)
    (h : smellsOK ctx.smells) : smellsOK (importVisit cfg n ctx).smells := by
  intro s hs
  unfold importVisit at hs
  dsimp only at hs
  repeat' split at hs
  all_goals try dsimp only at hs
  all_goals exact h s hs

theorem interfaceVisit_sev (cfg : MapperConfig) (n : Node) (ctx : FileContext)
    (h : smellsOK ctx.smells) : smellsOK (interfaceVisit cfg n ctx).smells := by
  intro s hs
  unfold interfaceVisit at hs
  try dsimp only at hs
  repeat' split at hs
  all_goals try dsimp only at hs
  all_goals exact h s hs

theorem typeAliasVisit_sev (cfg : MapperConfig) (n : Node) (ctx : FileContext)
    (h : smellsOK ctx.smells) : smellsOK (typeAliasVisit cfg n ctx).smells := by
  intro s hs
  unfold typeAliasVisit at hs
  try dsimp only at hs
  repeat' split at hs
  all_goals try dsimp only at hs
  all_goals exact h s hs

theorem catchAllVisit_sev (cfg : MapperConfig) (n : Node) (ctx : FileContext)
    (h : smellsOK ctx.smells) : smellsOK (catchAllVisit cfg n ctx).smells := by
  intro s hs
  unfold catchAllVisit at hs
  repeat' split at hs
  all_goals try dsimp only at hs
  all_goals try simp only [List.mem_append, List.mem_singleton] at hs
  all_goals try casesm* _ ∨ _
  all_goals first
    | exact h s (by assumption)
    | (subst_vars; exact Or.inl rfl)

theorem deadScan_sev (rel_path : String) :
    ∀ (l : List Node) (b : Bool) (t : String) (x : Smell),
      deadScan rel_path l b t = some x → x.severity = "medium" := by
  intro l
  induction l with
  | nil =>
    intro b t x hx
    exact absurd hx (by simp [deadScan])
  | cons c cs ih =>
    intro b t x hx
    unfold deadScan at hx
    split at hx
    · cases hx
      rfl
    · split at hx
      · exact ih true c.ty x hx
      · exact ih false t x hx

theorem deadCodeVisit_sev (cfg : MapperConfig) (n : Node) (ctx : FileContext)
    (h : smellsOK ctx.smells) : smellsOK (deadCodeVisit cfg n ctx).smells := by
  intro s hs
  unfold deadCodeVisit at hs
  split at hs
  · exact h s hs
  · dsimp only at hs
    split at hs
    · rename_i x heq
      dsimp only at hs
      rcases List.mem_append.mp hs with h1 | h1
      · exact h s h1
      · rw [List.mem_singleton.mp h1]
        exact Or.inr (Or.inl (deadScan_sev ctx.rel_path _ false "" x heq))
    · exact h s hs

theorem visitAll_sev (cfg : MapperConfig) (n : Node) (ctx : FileContext)
    (h : smellsOK ctx.smells) : smellsOK (visitAll cfg n ctx).smells :=
  deadCodeVisit_sev cfg n _ (catchAllVisit_sev cfg n _ (typeAliasVisit_sev cfg n _
    (interfaceVisit_sev cfg n _ (importVisit_sev cfg n _ (functionVisit_sev cfg n _
      (classVisit_sev cfg n ctx h))))))

mutual
theorem walkTree_sev (cfg : MapperConfig) : ∀ (n : Node) (ctx : FileContext),
    smellsOK ctx.smells → smellsOK (walkTree cfg n ctx).smells
  | .mk t x sr er nf cs, ctx, h => by
    rw [walkTree]
    exact walkList_sev cfg cs _ (visitAll_sev cfg _ _ h)
theorem walkList_sev (cfg : MapperConfig) : ∀ (l : List Node) (ctx : FileContext),
    smellsOK ctx.smells → smellsOK (walkList cfg l ctx).smells
  | [], _, h => by
    rw [walkList]
    exact h
  | c :: cs, ctx, h => by
    rw [walkList]
    exact walkList_sev cfg cs _ (walkTree_sev cfg c _ h)
end

theorem smellsOK_one (x : Smell) (hx : sevOK x) : smellsOK [x] := by
  intro s hs
  rw [List.mem_singleton.mp hs]
  exact hx

theorem importFold_smells (rel_path : String) :
    ∀ (l : List String) (acc : MapperState),
      (l.foldl (fun (acc : MapperState) imp_text =>
        match pySplitWS imp_text with
        | p0 :: p1 :: _ =>
          if p0 = "from" then
            { acc with import_graph :=
                graphAdd acc.import_graph (moduleKeyOfPath rel_path) p1 }
          else if p0 = "import" then
            { acc with import_graph :=
                graphAdd acc.import_graph (moduleKeyOfPath rel_path) (rstripComma p1) }
          else acc
        | _ => acc) acc).smells = acc.smells := by
  intro l
  induction l with
  | nil => intro acc; rfl
  | cons x xs ih =>
    intro acc
    rw [List.foldl_cons, ih]
    split
    · split
      · rfl
      · split
        · rfl
        · rfl
    · rfl

theorem parse_file_sev (cfg : MapperConfig) (st : MapperState) (rel_path lang : String)
    (f : SrcFile) (h : smellsOK st.smells) :
    smellsOK (parse_file cfg st rel_path lang f).smells := by
  have hctx : smellsOK (walkTree cfg f.root
      (emptyCtx rel_path lang (LANG_NODE_TYPES lang) f.source)).smells :=
    walkTree_sev cfg f.root _ smellsOK_nil
  unfold parse_file
  dsimp only
  split
  · rw [importFold_smells]
    dsimp only
    split
    · exact smellsOK_append (smellsOK_append h
        (smellsOK_one _ (Or.inr (Or.inr rfl)))) hctx
    · exact smellsOK_append h hctx
  · dsimp only
    split
    · exact smellsOK_append (smellsOK_append h
        (smellsOK_one _ (Or.inr (Or.inr rfl)))) hctx
    · exact smellsOK_append h hctx

theorem scanFold_sev (cfg : MapperConfig) (lookup : String → Option SrcFile)
    (rel_dir : String) :
    ∀ (l : List String) (st : MapperState), smellsOK st.smells →
      smellsOK ((l.foldl (fun acc fname =>
        match List.lookup (pathSuffix fname) EXT_TO_LANG with
        | none => acc
        | some lang =>
          match lookup (relPathOf rel_dir fname) with
          | none => acc
          | some f => parse_file cfg acc (relPathOf rel_dir fname) lang f) st)).smells := by
  intro l
  induction l with
  | nil => intro st h; exact h
  | cons x xs ih =>
    intro st h
    rw [List.foldl_cons]
    apply ih
    split
    · exact h
    · split
      · exact h
      · exact parse_file_sev cfg st _ _ _ h

theorem scanDir_sev (cfg : MapperConfig) (lookup : String → Option SrcFile)
    (rel_dir : String) (filenames : List String) (st : MapperState)
    (h : smellsOK st.smells) : smellsOK (scanDir cfg lookup rel_dir filenames st).smells := by
  unfold scanDir
  exact scanFold_sev cfg lookup rel_dir (pySortStrings filenames) st h

theorem scan_sev (cfg : MapperConfig) (dirs : List (String × List String))
    (lookup : String → Option SrcFile) : smellsOK (scan cfg dirs lookup).smells := by
  unfold scan
  have hfold : ∀ (l : List (String × List String)) (st : MapperState), smellsOK st.smells →
      smellsOK ((l.foldl (fun st e =>
        if should_ignore e.1 (DEFAULT_IGNORE_DIRS ++ cfg.extra_ignore_dirs) then st
        else scanDir cfg lookup e.1 e.2 st) st)).smells := by
    intro l
    induction l with
    | nil => intro st h; exact h
    | cons x xs ih =>
      intro st h
      rw [List.foldl_cons]
      apply ih
      split
      · exact h
      · exact scanDir_sev cfg lookup x.1 x.2 st h
  exact hfold dirs ⟨0, [], [], [], []⟩ smellsOK_nil

theorem circular_sev (g : List (String × List String)) (order : List String) :
    smellsOK (detect_circular_imports g order) := by
  intro s hs
  unfold detect_circular_imports at hs
  rw [List.mem_map] at hs
  obtain ⟨c, -, hc⟩ := hs
  rw [← hc]
  exact Or.inl rfl

theorem unused_sev (fd : List (String × FileData)) (rs : String → Option String) :
    smellsOK (detect_unused_imports fd rs) := by
  intro s hs
  unfold detect_unused_imports at hs
  rw [List.mem_flatMap] at hs
  obtain ⟨e, -, he⟩ := hs
  split at he
  · exact absurd he (List.not_mem_nil s)
  · split at he
    · exact absurd he (List.not_mem_nil s)
    · unfold unusedForFile at he
      rw [List.mem_flatMap] at he
      obtain ⟨imp, -, himp⟩ := he
      rw [List.mem_filterMap] at himp
      obtain ⟨name, -, hname⟩ := himp
      split at hname
      · rw [← Option.some.inj hname]
        exact Or.inr (Or.inr rfl)
      · simp at hname

theorem duplicate_sev (bodies : List FuncBody) :
    smellsOK (detect_duplicate_logic bodies) := by
  intro s hs
  unfold detect_duplicate_logic at hs
  split at hs
  · exact absurd hs (List.not_mem_nil s)
  · rw [dupScan_eq, List.mem_filterMap] at hs
    obtain ⟨AB, -, hAB⟩ := hs
    split at hAB
    · rw [← Option.some.inj hAB]
      exact Or.inr (Or.inl rfl)
    · simp at hAB

theorem analysisState_sev (cfg : MapperConfig) (dirs : List (String × List String))
    (lookup : String → Option SrcFile) (setOrder : List String → List String)
    (edgeOrder : String → List String → List String) :
    smellsOK (analysisState cfg dirs lookup setOrder edgeOrder).smells := by
  unfold analysisState
  dsimp only
  exact smellsOK_append (smellsOK_append (smellsOK_append (scan_sev cfg dirs lookup)
    (circular_sev _ _)) (unused_sev _ _)) (duplicate_sev _)

/-- C9: every finding produced by the full analysis (per-file visitors,
LARGE_FILE check and the three corpus passes) has severity high, medium
or low; and a finding with such a severity is kept by exactly one of
the three severity filters the formatter sections the report with. -/
theorem c9_severity_partition (cfg : MapperConfig) (dirs : List (String × List String))
    (lookup : String → Option SrcFile) (setOrder : List String → List String)
    (edgeOrder : String → List String → List String) :
    (∀ s ∈ (analysisState cfg dirs lookup setOrder edgeOrder).smells,
      s.severity = "high" ∨ s.severity = "medium" ∨ s.severity = "low")
    ∧ (∀ (active : List Smell) (s : Smell), s ∈ active →
        (s.severity = "high" ∨ s.severity = "medium" ∨ s.severity = "low") →
        (["high", "medium", "low"].countP (fun sev => s.severity == sev) = 1
         ∧ ∀ sev, (s ∈ active.filter (fun x => x.severity = sev) ↔ s.severity = sev))) := by
  constructor
  · exact analysisState_sev cfg dirs lookup setOrder edgeOrder
  · intro active s hmem hsev
    constructor
    · rcases hsev with h | h | h <;>
        simp [h, List.countP_cons, List.countP_nil]
    · intro sev
      simp only [List.mem_filter, decide_eq_true_eq]
      constructor
      · rintro ⟨-, h⟩
        exact h
      · intro h
        exact ⟨hmem, h⟩

/-- C9 witness: the partition facts instantiated on a concrete finding
inside a concrete active list. -/
theorem c9_witness :
    ((⟨"DEAD_CODE", "medium", "a.py", some 3, "d"⟩ : Smell)
        ∈ [(⟨"DEAD_CODE", "medium", "a.py", some 3, "d"⟩ : Smell)])
    ∧ ((⟨"DEAD_CODE", "medium", "a.py", some 3, "d"⟩ : Smell).severity = "high"
        ∨ (⟨"DEAD_CODE", "medium", "a.py", some 3, "d"⟩ : Smell).severity = "medium"
        ∨ (⟨"DEAD_CODE", "medium", "a.py", some 3, "d"⟩ : Smell).severity = "low")
    ∧ (["high", "medium", "low"].countP
        (fun sev => (⟨"DEAD_CODE", "medium", "a.py", some 3, "d"⟩ : Smell).severity == sev) = 1
       ∧ ∀ sev, ((⟨"DEAD_CODE", "medium", "a.py", some 3, "d"⟩ : Smell)
          ∈ [(⟨"DEAD_CODE", "medium", "a.py", some 3, "d"⟩ : Smell)].filter
              (fun x => x.severity = sev)
          ↔ (⟨"DEAD_CODE", "medium", "a.py", some 3, "d"⟩ : Smell).severity = sev)) :=
  ⟨List.mem_singleton.mpr rfl, by decide,
   (c9_severity_partition defaultConfig [] (fun _ => none) id (fun _ l => l)).2
     [⟨"DEAD_CODE", "medium", "a.py", some 3, "d"⟩]
     ⟨"DEAD_CODE", "medium", "a.py", some 3, "d"⟩
     (List.mem_singleton.mpr rfl) (by decide)⟩

def c8Dirs : List (String × List String) := [(".", ["a.py", "b.py"])]

def c8Lookup : String → Option SrcFile := fun p =>
  if p = "a.py" then
    some ⟨Node.mk "module" "import b" 0 0 true
      [Node.mk "import_statement" "import b" 0 0 true []], "import b"⟩
  else if p = "b.py" then
    some ⟨Node.mk "module" "import a" 0 0 true
      [Node.mk "import_statement" "import a" 0 0 true []], "import a"⟩
  else none

/-- A three-module tree: `m.py` imports `x` and `y`, `x.py` imports
`m`, `y.py` imports `x`.  Which cycle the search reports depends on
the order in which `m`'s import set is iterated. -/
def c8DirsB : List (String × List String) := [(".", ["m.py", "x.py", "y.py"])]

def c8LookupB : String → Option SrcFile := fun p =>
  if p = "m.py" then
    some ⟨Node.mk "module" "import x\nimport y" 0 1 true
      [Node.mk "import_statement" "import x" 0 0 true [],
       Node.mk "import_statement" "import y" 1 1 true []], "import x\nimport y"⟩
  else if p = "x.py" then
    some ⟨Node.mk "module" "import m" 0 0 true
      [Node.mk "import_statement" "import m" 0 0 true []], "import m"⟩
  else if p = "y.py" then
    some ⟨Node.mk "module" "import x" 0 0 true
      [Node.mk "import_statement" "import x" 0 0 true []], "import x"⟩
  else none

set_option maxRecDepth 1000000 in
/-- C8 counterexample: both hash-dependent set-iteration orders leak
into the report bytes of an unchanged tree.  First, for mutually
importing `a.py`/`b.py`, two `known_modules` orders attribute the kept
CIRCULAR_IMPORT finding to different files.  Second, with the
`known_modules` order held fixed, the `m`/`x`/`y` tree reports the
cycle `m -> x -> m` or `m -> y -> x -> m` depending on which way the
set of `m`'s imports happens to be iterated.  CPython randomizes the per-process
string-hash order of both sets, so re-running the program on the same
tree need not reproduce the report, and the differing line is a
finding, not an externally-sourced timestamp or metadata line. -/
theorem c8_counterexample :
    runAnalysis defaultConfig c8Dirs c8Lookup id (fun _ l => l)
      ≠ runAnalysis defaultConfig c8Dirs c8Lookup List.reverse (fun _ l => l)
    ∧ runAnalysis defaultConfig c8DirsB c8LookupB id (fun _ l => l)
      ≠ runAnalysis defaultConfig c8DirsB c8LookupB id (fun _ l => l.reverse) := by
  constructor
  · decide
  · decide

/-- C8 (amended): the report is a function of the scanned tree and of
the two set-iteration orders the program leaves open; two runs over
the same unchanged tree whose `known_modules` iteration orders and
per-module import-set iteration orders both coincide produce
byte-identical reports. -/
theorem c8_report_determined (cfg : MapperConfig) (dirs : List (String × List String))
    (lookup : String → Option SrcFile) (o1 o2 : List String → List String)
    (e1 e2 : String → List String → List String)
    (ho : o1 ((scan cfg dirs lookup).import_graph.map Prod.fst)
       = o2 ((scan cfg dirs lookup).import_graph.map Prod.fst))
    (he : (scan cfg dirs lookup).import_graph.map (fun e => (e.1, e1 e.1 e.2))
       = (scan cfg dirs lookup).import_graph.map (fun e => (e.1, e2 e.1 e.2))) :
    runAnalysis cfg dirs lookup o1 e1 = runAnalysis cfg dirs lookup o2 e2 := by
  unfold runAnalysis analysisState
  dsimp only
  rw [ho, he]

/-- C8 witness: syntactically different order functions that agree on
the concrete known-module list and on every concrete import set give
byte-identical reports. -/
theorem c8_witness :
    (id ((scan defaultConfig c8Dirs c8Lookup).import_graph.map Prod.fst)
      = (fun l => (l.reverse).reverse)
          ((scan defaultConfig c8Dirs c8Lookup).import_graph.map Prod.fst))
    ∧ ((scan defaultConfig c8Dirs c8Lookup).import_graph.map
          (fun e => (e.1, (fun (_ : String) (l : List String) => l) e.1 e.2))
      = (scan defaultConfig c8Dirs c8Lookup).import_graph.map
          (fun e => (e.1, (fun (_ : String) (l : List String) => (l.reverse).reverse) e.1 e.2)))
    ∧ runAnalysis defaultConfig c8Dirs c8Lookup id (fun _ l => l)
        = runAnalysis defaultConfig c8Dirs c8Lookup (fun l => (l.reverse).reverse)
            (fun _ l => (l.reverse).reverse) :=
  ⟨by decide, by decide,
   c8_report_determined defaultConfig c8Dirs c8Lookup id (fun l => (l.reverse).reverse)
     (fun _ l => l) (fun _ l => (l.reverse).reverse) (by decide) (by decide)⟩
